import Mathlib

/-!
Shallow embedding of the PySide/shiboken runtime signature bridge.

The definitions below model, close to the letter of the C source:
  * `sources/shiboken6/libshiboken/signature/signature.cpp`
    (`GetClassOrModOf`, `GetTypeKey`, `TypeKey_to_PropsDict`, `byteExpand`,
     `bytesToStrings`, `PySide_BuildSignatureProps`)
  * `signature_helper.cpp` (`_fixup_getset`, `add_more_getsets`,
     `_build_new_entry`, `insert_snake_case_variants`,
     `_get_class_of_cf`, `_get_class_of_sm`, `_get_class_of_descr`)

Python dictionaries are modelled as association lists in insertion order
(CPython dicts preserve insertion order; `PyDict_SetItem` on a present key
updates the value in place, otherwise appends; `PyDict_Next` iterates in
that order).  Python-level failure (a C `nullptr` return with an exception
set) is modelled with `Option`/explicit result variants.  The two external
dependencies of the store — the zlib `decompress` function and the
`pyside_type_init` signature parser implemented in Python — are oracles
supplied by a `BuildEnv`.
-/

set_option autoImplicit false

namespace Sig

/-! ## Association-list model of `PyDict` -/

/-- Model of `PyDict_GetItem`: first binding of `key`, if any. -/
def dlookup {κ α : Type} [DecidableEq κ] : List (κ × α) → κ → Option α
  | [], _ => none
  | (k, v) :: rest, key => if k = key then some v else dlookup rest key

/-- Model of `PyDict_SetItem`: replace the value in place if the key is present
(keeping its position), otherwise append the new binding. -/
def dset {κ α : Type} [DecidableEq κ] : List (κ × α) → κ → α → List (κ × α)
  | [], key, val => [(key, val)]
  | (k, v) :: rest, key, val =>
      if k = key then (key, val) :: rest else (k, v) :: dset rest key val

/-- Model of `PyDict_Merge(a, b, 0)`: walk `b` in order and add each binding whose
key is not yet present in `a`; present keys are never overwritten. -/
def dmergeKeep {κ α : Type} [DecidableEq κ] (a : List (κ × α)) :
    List (κ × α) → List (κ × α)
  | [] => a
  | (k, v) :: rest =>
      dmergeKeep (if (dlookup a k).isSome then a else dset a k v) rest

/-! ## Python values

A small universe of Python values, rich enough for the parsed signature
property records: strings, integers, lists and string-keyed dicts. -/

inductive PyVal : Type where
  | vstr (s : String)
  | vint (n : Int)
  | vlist (xs : List PyVal)
  | vdict (d : List (String × PyVal))

/-- Model of `Py_TYPE(v) == &PyDict_Type` test. -/
def PyVal.isVdict : PyVal → Bool
  | .vdict _ => true
  | _ => false

/-- Parsed per-type property dictionary (`PropsDict`): member name to
properties record. -/
abbrev PropsDict : Type := List (String × PyVal)

/-! ## Snake-case name transform

Modelled from the spec: `String::getSnakeCaseName` is not among the source
files (only its callers in `signature.cpp` and `signature_helper.cpp` are).
Spec §4.3: "a derived alternate-spelling name obtained by a deterministic,
reversible case-style transform over the declared name (e.g., camel-case to
snake-case). The transform is pure and idempotent." -/

/-- Modelled from the spec: one step of the camel-case to snake-case
transform — an upper-case letter becomes an underscore followed by its
lower-case form, every other character is kept. -/
def snakeChar (c : Char) : List Char :=
  if c.isUpper then ['_', c.toLower] else [c]

/-- Modelled from the spec: the camel-case to snake-case transform over a
character list. -/
def snakeChars : List Char → List Char
  | [] => []
  | c :: cs => snakeChar c ++ snakeChars cs

/-- Modelled from the spec: `String::getSnakeCaseName(name, lower = true)`,
the deterministic, pure case-style transform used for alternate
spellings. -/
def getSnakeCaseName (s : String) : String :=
  String.mk (snakeChars s.data)

/-! ## `signature_helper.cpp`: snake-case variants of a `PropsDict`

Value-level model of `_build_new_entry` and `insert_snake_case_variants`.
`PyDict_Copy` of an immutable value is the value itself at this level;
failure (`nullptr` / `-1`) is `none`.  A heap-level model of the same code,
which makes the copying and in-place mutation observable, appears further
below for the frame property. -/

/-- The loop of `_build_new_entry` over the `multi` list: duplicate each
entry (each must be a dict, as `PyDict_Copy` fails otherwise) and set its
`name` key to the new name, preserving order. -/
def copyMultiList (new_name : String) : List PyVal → Option (List PyVal)
  | [] => some []
  | .vdict de :: rest =>
      (copyMultiList new_name rest).map
        (fun r => .vdict (dset de "name" (.vstr new_name)) :: r)
  | _ => none

/-- Model of `_build_new_entry(new_name, value)`: copy the record; if it embeds a
`multi` list, re-build that list with every member renamed, else just set
the record's `name`. -/
def _build_new_entry (new_name : String) (value : PyVal) : Option PyVal :=
  match value with
  | .vdict d =>
      match dlookup d "multi" with
      | some (.vlist ms) =>
          match copyMultiList new_name ms with
          | none => none
          | some ms' => some (.vdict (dset d "multi" (.vlist ms')))
      | _ => some (.vdict (dset d "name" (.vstr new_name)))
  | _ => none

/-- The `PyDict_Next` loop of `insert_snake_case_variants`, threading the
`snake_dict` accumulator. -/
def buildSnakeGo : List (String × PyVal) → PropsDict → Option PropsDict
  | [], snake => some snake
  | (k, v) :: rest, snake =>
      match _build_new_entry (getSnakeCaseName k) v with
      | none => none
      | some nv => buildSnakeGo rest (dset snake (getSnakeCaseName k) nv)

/-- Model of `insert_snake_case_variants(dict)`: build the dictionary of snake-case
variants, then merge it into `dict` without overwriting existing keys
(`PyDict_Merge(dict, snake_dict, 0)`).  `none` models the `-1` error
return. -/
def insert_snake_case_variants (dict : PropsDict) : Option PropsDict :=
  match buildSnakeGo dict [] with
  | none => none
  | some snake => some (dmergeKeep dict snake)

/-- Shape of a parsed properties record on which `_build_new_entry` cannot
fail: a dict whose `multi` entry, when it is a list, holds only dicts. -/
def wfEntry : PyVal → Bool
  | .vdict d =>
      match dlookup d "multi" with
      | some (.vlist ms) => ms.all PyVal.isVdict
      | _ => true
  | _ => false

/-! ## `bytesToStrings`: splitting a decompressed payload into lines -/

/-- The scanning loop of `bytesToStrings`: walk the buffer; each `'\n'`
terminates the line accumulated since the previous newline and emits it;
characters after the last newline are never emitted (`lines[pos] = nullptr`
is written after the loop, so the trailing `line` pointer is dropped). -/
def splitLinesGo : List Char → List Char → List String
  | [], _ => []
  | c :: ps, line =>
      if c = '\n' then String.mk line :: splitLinesGo ps []
      else splitLinesGo ps (line ++ [c])

/-- The line-splitting step of `bytesToStrings` on the decompressed
buffer. -/
def splitLines (cdata : List Char) : List String :=
  splitLinesGo cdata []

/-- Claim-side description of the split (for the refinement statement):
the newline-terminated segments of the buffer in order, one per `'\n'`;
a trailing segment not terminated by a newline is discarded. -/
def specSegments : List Char → List (List Char)
  | [] => []
  | c :: cs =>
      if c = '\n' then [] :: specSegments cs
      else
        match specSegments cs with
        | [] => []
        | seg :: segs => (c :: seg) :: segs

/-! ## The signature store (`signature.cpp`) -/

/-- Model of `TypeKey`: the key built by `GetTypeKey` — either the plain `__name__`
of a module, or the pair `(__module__, __qualname__)` of a class. -/
inductive TypeKey : Type where
  | single (name : String)
  | pair (moduleName qualName : String)
deriving DecidableEq

/-- One stored value of `pyside_globals->arg_dict`: the `int` address of a
static string array (`PySide_BuildSignatureArgs`), the
`(address, byteLength)` tuple of a compressed blob
(`PySide_BuildSignatureArgsByte`), or the built `PropsDict` that replaces
them (`PySide_BuildSignatureProps`).  For a compressed blob we record the
`byteLength` bytes at the address. -/
inductive Entry : Type where
  | numkey (strings : List String)
  | bytekey (data : List Nat)
  | props (d : PropsDict)

/-- Model of `PyDict_Check` on a stored entry: only a built `PropsDict` is a dict. -/
def Entry.isDict : Entry → Bool
  | .props _ => true
  | _ => false

/-- The process-wide `pyside_globals->arg_dict`. -/
abbrev Store : Type := List (TypeKey × Entry)

/-- Result of calling the delegated Python parser
(`pyside_globals->pyside_type_init_func`): a dict, a `nullptr` without an
exception set (`noResult`), or a `nullptr` with an exception set
(`error`). -/
inductive ParseResult : Type where
  | ok (d : PropsDict)
  | noResult
  | error

/-- External dependencies of the build path: the zlib `decompress`
function (`none` = decompression failure with an exception set) and the
delegated signature parser. -/
structure BuildEnv : Type where
  expand : List Nat → Option (List Char)
  typeInit : TypeKey → List String → ParseResult

/-- Call-count probes: how many times the zlib expand function and the
delegated parser were invoked during one call. -/
structure Work : Type where
  expandCalls : Nat
  parseCalls : Nat
deriving DecidableEq

/-- Model of `byteExpand(packed)`: delegate to zlib's `decompress`; `none` models
the `nullptr` return with `PyExc_ValueError` set. -/
def byteExpand (env : BuildEnv) (packed : List Nat) : Option (List Char) :=
  env.expand packed

/-- Model of `bytesToStrings(signatures, size)`: only a positive size goes through
`byteExpand`; a zero size is turned into the empty buffer directly ("The
Qt compressor treats empty arrays specially").  The second component
counts the `byteExpand` invocations. -/
def bytesToStrings (env : BuildEnv) (signatures : List Nat) :
    Option (List String) × Nat :=
  if signatures.length > 0 then
    match byteExpand env signatures with
    | none => (none, 1)
    | some cdata => (some (splitLines cdata), 1)
  else (some (splitLines []), 0)

/-- Common tail of `PySide_BuildSignatureProps` once the signature strings
are materialized: call the delegated parser; on `nullptr` with an error
propagate, on `nullptr` without error return the shared `empty_dict`
(without touching the store), else insert the snake-case variants and
replace the stored entry by the result. -/
def buildSignaturePropsTail (env : BuildEnv) (st : Store) (type_key : TypeKey)
    (strs : List String) (ew : Nat) : Option PropsDict × Store × Work :=
  match env.typeInit type_key strs with
  | .error => (none, st, ⟨ew, 1⟩)
  | .noResult => (some [], st, ⟨ew, 1⟩)
  | .ok d =>
      match insert_snake_case_variants d with
      | none => (none, st, ⟨ew, 1⟩)
      | some d1 => (some d1, dset st type_key (.props d1), ⟨ew, 1⟩)

/-- Model of `PySide_BuildSignatureProps(type_key)`: pick up the stored raw
arguments, materialize the string list (decompressing via
`bytesToStrings` when the entry is the `(address, size)` tuple), parse,
and replace the stored entry by the resulting dict. -/
def PySide_BuildSignatureProps (env : BuildEnv) (st : Store) (type_key : TypeKey) :
    Option PropsDict × Store × Work :=
  match dlookup st type_key with
  | some (.bytekey data) =>
      match bytesToStrings env data with
      | (none, w) => (none, st, ⟨w, 0⟩)
      | (some strs, w) => buildSignaturePropsTail env st type_key strs w
  | some (.numkey strs) => buildSignaturePropsTail env st type_key strs 0
  | _ => (none, st, ⟨0, 0⟩)

/-- Model of `TypeKey_to_PropsDict(type_key)` (the `propsFor` operation): a missing
entry yields the shared `empty_dict`; a stored entry that is not a dict is
built (and replaced) by `PySide_BuildSignatureProps`; a stored dict is
returned as is. -/
def TypeKey_to_PropsDict (env : BuildEnv) (st : Store) (type_key : TypeKey) :
    Option PropsDict × Store × Work :=
  match dlookup st type_key with
  | none => (some [], st, ⟨0, 0⟩)
  | some (.props d) => (some d, st, ⟨0, 0⟩)
  | some _ => PySide_BuildSignatureProps env st type_key

/-- The signature strings a raw entry materializes to, with the number of
decompressor calls this takes (used to state the lazy-build theorem
uniformly over both registration forms). -/
def entryStrings (env : BuildEnv) : Entry → Option (List String) × Nat
  | .numkey strs => (some strs, 0)
  | .bytekey data => bytesToStrings env data
  | .props _ => (none, 0)

/-! ## `GetTypeKey` (`signature.cpp`) -/

/-- The attributes of a class or module that `GetTypeKey` inspects. -/
structure TMEntity : Type where
  moduleAttr : Option String
  qualnameAttr : Option String
  nameAttr : Option String
deriving DecidableEq

/-- Result of `GetTypeKey`: a key, a `nullptr` return with a Python
exception set (`err`), or `Py_FatalError` (`fatal`). -/
inductive KeyResult : Type where
  | key (k : TypeKey)
  | err
  | fatal
deriving DecidableEq

/-- Model of `GetTypeKey(ob)`: prefer `(__module__, __qualname__)`; when the
`__module__` lookup fails the entity is a module and its `__name__` alone
is the key; a present `__module__` with a missing `__qualname__` is
`Py_FatalError("Signature: missing class name in GetTypeKey")`. -/
def GetTypeKey (ob : TMEntity) : KeyResult :=
  match ob.moduleAttr with
  | none =>
      match ob.nameAttr with
      | none => .err
      | some n => .key (.single n)
  | some m =>
      match ob.qualnameAttr with
      | none => .fatal
      | some q => .key (.pair m q)

/-! ## `GetClassOrModOf` (`signature.cpp` / `signature_helper.cpp`) -/

/-- The concrete object kind `GetClassOrModOf` dispatches on (the CPython
build without the PyPy special case). -/
inductive PyKind : Type where
  | typeObject
  | moduleObject
  | cfunction
  | staticMethod
  | methodDescr
  | wrapperDescr
  | other
deriving DecidableEq

/-- A class or a module, the two possible owners returned by the
resolver. -/
inductive ClassOrMod : Type where
  | cls (name : String)
  | mod (name : String)
deriving DecidableEq

/-- What `PyCFunction_GET_SELF` (or the `map_dict` fallbacks) can hold: a
type, a module, or an ordinary instance of some type. -/
inductive SelfRef : Type where
  | refType (name : String)
  | refModule (name : String)
  | refInstance (typeName : String)
deriving DecidableEq

/-- The fields of a reflectable entity that the classification helpers
inspect.  For a static method the fields describe its `__func__`. -/
structure SigEntity : Type where
  kind : PyKind
  name : String
  selfRef : Option SelfRef
  mapDictEntry : Option SelfRef
  mapDictOverloadEntry : Option SelfRef
  objclassAttr : Option ClassOrMod
deriving DecidableEq

/-- Model of `obtype_mod = (PyType_Check(selftype) || PyModule_Check(selftype)) ?
selftype : Py_TYPE(selftype)`. -/
def selfToClassOrMod : SelfRef → ClassOrMod
  | .refType n => .cls n
  | .refModule n => .mod n
  | .refInstance t => .cls t

/-- Model of `_get_class_of_cf(ob_cf)`: use `PyCFunction_GET_SELF`, then the
`map_dict` entry, then the `(ob, "overload")` entry, and finally fall back
to `Py_None` (whose type, `NoneType`, is returned). -/
def _get_class_of_cf (ob_cf : SigEntity) : ClassOrMod :=
  match ob_cf.selfRef with
  | some s => selfToClassOrMod s
  | none =>
      match ob_cf.mapDictEntry with
      | some s => selfToClassOrMod s
      | none =>
          match ob_cf.mapDictOverloadEntry with
          | some s => selfToClassOrMod s
          | none => .cls "NoneType"

/-- Model of `_get_class_of_sm(ob_sm)`: resolve the wrapped `__func__` like a
`PyCFunction`. -/
def _get_class_of_sm (ob_sm : SigEntity) : ClassOrMod :=
  _get_class_of_cf ob_sm

/-- Model of `_get_class_of_descr(ob)`: return the `__objclass__` attribute; a
missing attribute is an ordinary attribute error (`nullptr` with an
exception), not a fatal error. -/
def _get_class_of_descr (ob : SigEntity) : Option ClassOrMod :=
  ob.objclassAttr

/-- Result of `GetClassOrModOf`: an owner, an ordinary error return, or
`Py_FatalError("unexpected type in GetClassOrModOf")`. -/
inductive ClassifyResult : Type where
  | ok (c : ClassOrMod)
  | err
  | fatal
deriving DecidableEq

/-- Model of `GetClassOrModOf(ob)`: flat dispatch over the concrete kind — a type
is its own owner; `PyCFunction` (and subtypes), static methods and the two
descriptor kinds are resolved by their helpers; everything else (a module
included: it is neither a type nor any of the checked function kinds)
reaches `Py_FatalError`. -/
def GetClassOrModOf (ob : SigEntity) : ClassifyResult :=
  match ob.kind with
  | .typeObject => .ok (.cls ob.name)
  | .cfunction => .ok (_get_class_of_cf ob)
  | .staticMethod => .ok (_get_class_of_sm ob)
  | .methodDescr =>
      match _get_class_of_descr ob with
      | some c => .ok c
      | none => .err
  | .wrapperDescr =>
      match _get_class_of_descr ob with
      | some c => .ok c
      | none => .err
  | .moduleObject => .fatal
  | .other => .fatal

/-! ## `add_more_getsets` (`signature_helper.cpp`) -/

/-- A `PyGetSetDef` slot: the getter/setter are opaque function ids. -/
structure PyGetSetDef : Type where
  name : String
  get : Nat
  set : Option Nat
  doc : Option String
  closure : Option Nat
deriving DecidableEq

/-- A `PyMemberDef` slot (only the name matters here). -/
structure PyMemberDef : Type where
  name : String
deriving DecidableEq

/-- A value stored in a type's `tp_dict`: a getset descriptor owned by a
type, a member descriptor, or some unrelated object. -/
inductive DictEntry : Type where
  | getsetDescr (typeName : String) (g : PyGetSetDef)
  | memberDescr (typeName : String) (m : PyMemberDef)
  | otherObj (id : Nat)
deriving DecidableEq

/-- The parts of a `PyTypeObject` that `add_more_getsets` touches: the
static `tp_getset` / `tp_members` tables and the `tp_dict`. -/
structure PyTypeObj : Type where
  typeName : String
  tp_getset : List PyGetSetDef
  tp_members : List PyMemberDef
  dict : List (String × DictEntry)
deriving DecidableEq

/-- Linear scan of the static `tp_getset` table. -/
def findGetSet : List PyGetSetDef → String → Option PyGetSetDef
  | [], _ => none
  | g :: rest, name => if g.name = name then some g else findGetSet rest name

/-- Linear scan of the static `tp_members` table. -/
def findMember : List PyMemberDef → String → Option PyMemberDef
  | [], _ => none
  | m :: rest, name => if m.name = name then some m else findMember rest name

/-- Model of `_fixup_getset(type, name, new_gsp)`: when the name is a static getset
slot, pre-fill the new def's `set`/`doc`/`closure` from it and report
success; when it is a static member, report success without pre-filling;
otherwise report failure. -/
def _fixup_getset (t : PyTypeObj) (name : String) (new_gsp : PyGetSetDef) :
    Bool × PyGetSetDef :=
  match findGetSet t.tp_getset name with
  | some g => (true, { new_gsp with set := g.set, doc := g.doc, closure := g.closure })
  | none =>
      match findMember t.tp_members name with
      | some _ => (true, new_gsp)
      | none => (false, new_gsp)

/-- Model of the `PyType_Ready` effect on the dict for the static getset table: insert
a descriptor for every slot whose name is not yet bound. -/
def readyGetsets (tname : String) :
    List PyGetSetDef → List (String × DictEntry) → List (String × DictEntry)
  | [], dict => dict
  | g :: rest, dict =>
      readyGetsets tname rest
        (if (dlookup dict g.name).isSome then dict
         else dset dict g.name (.getsetDescr tname g))

/-- Model of the `PyType_Ready` effect on the dict for the static member table. -/
def readyMembers (tname : String) :
    List PyMemberDef → List (String × DictEntry) → List (String × DictEntry)
  | [], dict => dict
  | m :: rest, dict =>
      readyMembers tname rest
        (if (dlookup dict m.name).isSome then dict
         else dset dict m.name (.memberDescr tname m))

/-- The `PyType_Ready(type)` call at the head of `add_more_getsets`:
descriptors for all static slots are in the dict afterwards. -/
def pyTypeReady (t : PyTypeObj) : PyTypeObj :=
  { t with dict := readyMembers t.typeName t.tp_members
                     (readyGetsets t.typeName t.tp_getset t.dict) }

/-- Observable outcome of one `add_more_getsets` run: the final dict, the
getset array after its in-place pre-fills, the number of
`PyDescr_NewGetSet` + `PyDict_SetItemString` installations, the number of
times the debug `assert(false)` was reached (execution continues in an
NDEBUG build), and the `*doc_descr` out-parameter. -/
structure GetsetResult : Type where
  dict : List (String × DictEntry)
  gsps : List PyGetSetDef
  installs : Nat
  assertViolations : Nat
  docDescr : Option DictEntry
deriving DecidableEq

/-- The `for (; gsp->name != nullptr; gsp++)` loop of `add_more_getsets`:
a name already bound in the dict records `*doc_descr` when it is
`__doc__` (any other pre-bound name reaches `assert(false)`), then
consults `_fixup_getset` — on failure the entry is skipped, on success
(and always when the name was unbound) a fresh getset descriptor is
created and stored. -/
def add_more_getsets_go (t : PyTypeObj) :
    List PyGetSetDef → List (String × DictEntry) → Nat → Nat →
    Option DictEntry → GetsetResult
  | [], dict, ins, av, docd =>
      { dict := dict, gsps := [], installs := ins,
        assertViolations := av, docDescr := docd }
  | gsp :: rest, dict, ins, av, docd =>
      match dlookup dict gsp.name with
      | some have_descr =>
          let docd' := if gsp.name = "__doc__" then some have_descr else docd
          let av' := if gsp.name = "__doc__" then av else av + 1
          match _fixup_getset t gsp.name gsp with
          | (true, gsp') =>
              let r := add_more_getsets_go t rest
                (dset dict gsp.name (.getsetDescr t.typeName gsp'))
                (ins + 1) av' docd'
              { r with gsps := gsp' :: r.gsps }
          | (false, gsp') =>
              let r := add_more_getsets_go t rest dict ins av' docd'
              { r with gsps := gsp' :: r.gsps }
      | none =>
          let r := add_more_getsets_go t rest
            (dset dict gsp.name (.getsetDescr t.typeName gsp)) (ins + 1) av docd
          { r with gsps := gsp :: r.gsps }

/-- Model of `add_more_getsets(type, gsp, doc_descr)`: ready the type, then run the
installation loop on its dict. -/
def add_more_getsets (t : PyTypeObj) (gsps : List PyGetSetDef) :
    PyTypeObj × GetsetResult :=
  let t0 := pyTypeReady t
  let r := add_more_getsets_go t0 gsps t0.dict 0 0 none
  ({ t0 with dict := r.dict }, r)

/-! ## Heap model of `_build_new_entry`

To make the claim about copying versus mutation observable, the same
`_build_new_entry` code is modelled once more against an explicit heap of
Python objects addressed by `Nat`; `PyDict_Copy` allocates, and
`PyDict_SetItem` / `PyList_SetItem` mutate the object at an address. -/

/-- A heap object: a string, a dict mapping field names to addresses, or a
list of addresses. -/
inductive HObj : Type where
  | hstr (s : String)
  | hdict (fields : List (String × Nat))
  | hlist (elems : List Nat)
deriving DecidableEq

/-- A heap: an address-indexed store and the next fresh address. -/
structure Heap : Type where
  mem : List (Nat × HObj)
  next : Nat
deriving DecidableEq

/-- Read the object at an address. -/
def Heap.look (h : Heap) (a : Nat) : Option HObj :=
  dlookup h.mem a

/-- Allocate a fresh object, returning its address. -/
def Heap.alloc (h : Heap) (o : HObj) : Nat × Heap :=
  (h.next, ⟨(h.next, o) :: h.mem, h.next + 1⟩)

/-- Overwrite the object at an address (in-place mutation). -/
def Heap.write (h : Heap) (a : Nat) (o : HObj) : Heap :=
  ⟨dset h.mem a o, h.next⟩

/-- The `multi` loop of `_build_new_entry` on the heap: for each entry of
the overload-family list, `PyDict_Copy` it (a fresh dict with the same
fields) and set the copy's `name` field to the new name; the addresses of
the copies are collected in order. -/
def copyMultiGoH (newName : Nat) : Heap → List Nat → Option (List Nat × Heap)
  | h, [] => some ([], h)
  | h, e :: es =>
      match h.look e with
      | some (.hdict de) =>
          let (dup, h1) := h.alloc (.hdict de)
          let h2 := h1.write dup (.hdict (dset de "name" newName))
          match copyMultiGoH newName h2 es with
          | none => none
          | some (ds, h3) => some (dup :: ds, h3)
      | _ => none

/-- Model of `_build_new_entry(new_name, value)` on the heap: `PyDict_Copy(value)`
allocates the new record; when the original holds a `multi` list, the
copies of its members are collected into a fresh list object that replaces
the copy's `multi` field; otherwise the copy's `name` field is set.  All
`PyDict_SetItem` mutations target freshly allocated objects only. -/
def buildNewEntryH (h : Heap) (newName : Nat) (value : Nat) :
    Option (Nat × Heap) :=
  match h.look value with
  | some (.hdict d) =>
      let (nv, h1) := h.alloc (.hdict d)
      match dlookup d "multi" with
      | some maddr =>
          match h1.look maddr with
          | some (.hlist elems) =>
              match copyMultiGoH newName h1 elems with
              | none => none
              | some (ds, h2) =>
                  let (lst, h3) := h2.alloc (.hlist ds)
                  some (nv, h3.write nv (.hdict (dset d "multi" lst)))
          | _ => some (nv, h1.write nv (.hdict (dset d "name" newName)))
      | none => some (nv, h1.write nv (.hdict (dset d "name" newName)))
  | _ => none

/-! ## Lemmas about the dictionary model -/

theorem dlookup_dset_self {κ α : Type} [DecidableEq κ] (d : List (κ × α)) (k : κ) (v : α) :
    dlookup (dset d k v) k = some v := by
  induction d with
  | nil => simp [dset, dlookup]
  | cons p rest ih =>
      obtain ⟨k', v'⟩ := p
      by_cases h : k' = k
      · simp [dset, h, dlookup]
      · simp [dset, h, dlookup, ih]

theorem dlookup_dset_ne {κ α : Type} [DecidableEq κ] (d : List (κ × α)) (k k' : κ) (v : α)
    (h : k ≠ k') : dlookup (dset d k v) k' = dlookup d k' := by
  induction d with
  | nil => simp [dset, dlookup, h]
  | cons p rest ih =>
      obtain ⟨k0, v0⟩ := p
      by_cases h0 : k0 = k
      · subst h0
        simp [dset, dlookup, h]
      · simp [dset, h0, dlookup, ih]

theorem dlookup_isSome_dset {κ α : Type} [DecidableEq κ] (d : List (κ × α)) (k k' : κ) (v : α) :
    (dlookup (dset d k v) k').isSome ↔ k = k' ∨ (dlookup d k').isSome := by
  by_cases h : k = k'
  · subst h; simp [dlookup_dset_self]
  · simp [dlookup_dset_ne d k k' v h, h]

/-- Every binding of `dset d k v` is either the new binding or one of `d`. -/
theorem mem_dset {κ α : Type} [DecidableEq κ] (d : List (κ × α)) (k : κ) (v : α) :
    ∀ p ∈ dset d k v, p = (k, v) ∨ p ∈ d := by
  induction d with
  | nil => simp [dset]
  | cons q rest ih =>
      obtain ⟨k0, v0⟩ := q
      by_cases h0 : k0 = k
      · intro p hp
        simp [dset, h0] at hp
        rcases hp with h | h
        · left; simp [h]
        · right; simp [h]
      · intro p hp
        simp [dset, h0] at hp
        rcases hp with h | h
        · right; simp [h]
        · rcases ih p h with h1 | h1
          · left; exact h1
          · right; simp [h1]

/-- Merging with `override = 0` never changes the binding of a key that is
already present in the left dictionary. -/
theorem dlookup_dmergeKeep_of_isSome {κ α : Type} [DecidableEq κ]
    (b a : List (κ × α)) (k : κ)
    (h : (dlookup a k).isSome) : dlookup (dmergeKeep a b) k = dlookup a k := by
  induction b generalizing a with
  | nil => simp [dmergeKeep]
  | cons p rest ih =>
      obtain ⟨k0, v0⟩ := p
      by_cases h0 : (dlookup a k0).isSome
      · simpa [dmergeKeep, h0] using ih a h
      · have hne : k0 ≠ k := by
          intro he; subst he; exact h0 h
        have := ih (dset a k0 v0) (by simpa [dlookup_dset_ne a k0 k v0 hne] using h)
        simpa [dmergeKeep, h0, dlookup_dset_ne a k0 k v0 hne] using this

/-- If every key of `b` is already bound in `a`, the `override = 0` merge
is a no-op. -/
theorem dmergeKeep_eq_self {κ α : Type} [DecidableEq κ] (b a : List (κ × α))
    (h : ∀ p ∈ b, (dlookup a p.1).isSome) : dmergeKeep a b = a := by
  induction b generalizing a with
  | nil => simp [dmergeKeep]
  | cons p rest ih =>
      obtain ⟨k0, v0⟩ := p
      have h0 : (dlookup a k0).isSome := h (k0, v0) (by simp)
      have := ih a (fun q hq => h q (by simp [hq]))
      simpa [dmergeKeep, h0] using this

/-- Keys present in `a` stay present after the merge, and every key of `b`
becomes present. -/
theorem dlookup_dmergeKeep_isSome {κ α : Type} [DecidableEq κ]
    (b a : List (κ × α)) (k : κ) :
    (dlookup (dmergeKeep a b) k).isSome ↔
      (dlookup a k).isSome ∨ (dlookup b k).isSome := by
  induction b generalizing a with
  | nil => simp [dmergeKeep, dlookup]
  | cons p rest ih =>
      obtain ⟨k0, v0⟩ := p
      by_cases h0 : (dlookup a k0).isSome
      · by_cases hk : k0 = k
        · subst hk
          simp [dmergeKeep, h0, dlookup, ih, h0]
        · simp [dmergeKeep, h0, dlookup, hk, ih]
      · by_cases hk : k0 = k
        · subst hk
          simp [dmergeKeep, h0, dlookup, ih, dlookup_isSome_dset]
        · simp [dmergeKeep, h0, dlookup, hk, ih,
                dlookup_isSome_dset, hk]

/-- Every binding of the merge result comes from `a` or from `b`. -/
theorem mem_dmergeKeep {κ α : Type} [DecidableEq κ] (b a : List (κ × α)) :
    ∀ p ∈ dmergeKeep a b, p ∈ a ∨ p ∈ b := by
  induction b generalizing a with
  | nil => intro p hp; exact Or.inl hp
  | cons q rest ih =>
      obtain ⟨k0, v0⟩ := q
      intro p hp
      by_cases h0 : (dlookup a k0).isSome
      · rcases ih a p (by simpa [dmergeKeep, h0] using hp) with h | h
        · exact Or.inl h
        · exact Or.inr (by simp [h])
      · rcases ih (dset a k0 v0) p (by simpa [dmergeKeep, h0] using hp) with h | h
        · rcases mem_dset a k0 v0 p h with h1 | h1
          · exact Or.inr (by simp [h1])
          · exact Or.inl h1
        · exact Or.inr (by simp [h])

theorem dlookup_isSome_iff_mem {κ α : Type} [DecidableEq κ] (d : List (κ × α)) (k : κ) :
    (dlookup d k).isSome ↔ ∃ v, (k, v) ∈ d := by
  induction d with
  | nil => simp [dlookup]
  | cons p rest ih =>
      obtain ⟨k0, v0⟩ := p
      by_cases h : k0 = k
      · subst h
        simp [dlookup]
      · simp only [dlookup, h, if_false, List.mem_cons, ih]
        constructor
        · rintro ⟨v, hv⟩
          exact ⟨v, Or.inr hv⟩
        · rintro ⟨v, hv | hv⟩
          · cases hv
            exact absurd rfl h
          · exact ⟨v, hv⟩

/-! ## Lemmas about the snake-case transform -/

theorem toLower_isUpper_eq_false (c : Char) (h : c.isUpper = true) :
    (Char.toLower c).isUpper = false := by
  simp only [Char.isUpper, Bool.and_eq_true, decide_eq_true_eq] at h
  obtain ⟨h1, h2⟩ := h
  have h65 : 65 ≤ c.toNat := h1
  have h90 : c.toNat ≤ 90 := h2
  have hc : Char.ofNat c.toNat = c := Char.ofNat_toNat c
  set n := c.toNat with hn
  rw [← hc]
  interval_cases n <;> decide

theorem not_isUpper_of_mem_snakeChar (c c' : Char) (h : c' ∈ snakeChar c) :
    c'.isUpper = false := by
  by_cases hu : c.isUpper
  · simp only [snakeChar, hu, if_true, List.mem_cons, List.mem_singleton] at h
    rcases h with h | h | h
    · subst h; decide
    · subst h; exact toLower_isUpper_eq_false c hu
    · cases h
  · simp only [snakeChar, hu, if_false, Bool.false_eq_true, List.mem_singleton] at h
    subst h
    simpa using hu

theorem snakeChar_of_not_isUpper (c : Char) (h : c.isUpper = false) :
    snakeChar c = [c] := by
  simp [snakeChar, h]

theorem not_isUpper_of_mem_snakeChars (l : List Char) (c' : Char)
    (h : c' ∈ snakeChars l) : c'.isUpper = false := by
  induction l with
  | nil => cases h
  | cons c cs ih =>
      simp only [snakeChars, List.mem_append] at h
      rcases h with h | h
      · exact not_isUpper_of_mem_snakeChar c c' h
      · exact ih h

theorem snakeChars_of_no_upper (l : List Char)
    (h : ∀ c ∈ l, c.isUpper = false) : snakeChars l = l := by
  induction l with
  | nil => rfl
  | cons c cs ih =>
      have hc := h c (by simp)
      simp [snakeChars, snakeChar_of_not_isUpper c hc,
            ih (fun x hx => h x (by simp [hx]))]

theorem snakeChars_idem (l : List Char) :
    snakeChars (snakeChars l) = snakeChars l :=
  snakeChars_of_no_upper _ (not_isUpper_of_mem_snakeChars l)

/-- The spec's requirement that the case transform is idempotent holds of
the modelled transform. -/
theorem getSnakeCaseName_idem (s : String) :
    getSnakeCaseName (getSnakeCaseName s) = getSnakeCaseName s := by
  simp [getSnakeCaseName, snakeChars_idem]

/-! ## Lemmas about `insert_snake_case_variants` -/

theorem copyMultiList_of_all_vdict (new_name : String) (ms : List PyVal)
    (h : ms.all PyVal.isVdict = true) :
    ∃ ms', copyMultiList new_name ms = some ms' ∧ ms'.all PyVal.isVdict = true := by
  induction ms with
  | nil => exact ⟨[], rfl, rfl⟩
  | cons m rest ih =>
      simp only [List.all_cons, Bool.and_eq_true] at h
      obtain ⟨hm, hrest⟩ := h
      obtain ⟨r, hr, hall⟩ := ih hrest
      match m, hm with
      | .vdict de, _ =>
          refine ⟨.vdict (dset de "name" (.vstr new_name)) :: r, ?_, ?_⟩
          · simp [copyMultiList, hr]
          · simp [List.all_cons, hall, PyVal.isVdict]

/-- On a well-formed record, `_build_new_entry` succeeds and produces a
well-formed record. -/
theorem _build_new_entry_of_wf (new_name : String) (value : PyVal)
    (h : wfEntry value = true) :
    ∃ v', _build_new_entry new_name value = some v' ∧ wfEntry v' = true := by
  match value, h with
  | .vdict d, h =>
      unfold _build_new_entry
      cases hm : dlookup d "multi" with
      | none =>
          refine ⟨.vdict (dset d "name" (.vstr new_name)), by simp [hm], ?_⟩
          have : dlookup (dset d "name" (.vstr new_name)) "multi" = dlookup d "multi" :=
            dlookup_dset_ne d "name" "multi" _ (by decide)
          simp [wfEntry, this, hm]
      | some mv =>
          cases mv with
          | vlist ms =>
              have hall0 : ms.all PyVal.isVdict = true := by
                simpa [wfEntry, hm] using h
              obtain ⟨ms', hms', hall⟩ := copyMultiList_of_all_vdict new_name ms hall0
              refine ⟨.vdict (dset d "multi" (.vlist ms')), by simp [hm, hms'], ?_⟩
              simp [wfEntry, dlookup_dset_self, hall]
          | vstr s =>
              refine ⟨.vdict (dset d "name" (.vstr new_name)), by simp [hm], ?_⟩
              have : dlookup (dset d "name" (.vstr new_name)) "multi" = dlookup d "multi" :=
                dlookup_dset_ne d "name" "multi" _ (by decide)
              simp [wfEntry, this, hm]
          | vint n =>
              refine ⟨.vdict (dset d "name" (.vstr new_name)), by simp [hm], ?_⟩
              have : dlookup (dset d "name" (.vstr new_name)) "multi" = dlookup d "multi" :=
                dlookup_dset_ne d "name" "multi" _ (by decide)
              simp [wfEntry, this, hm]
          | vdict dd =>
              refine ⟨.vdict (dset d "name" (.vstr new_name)), by simp [hm], ?_⟩
              have : dlookup (dset d "name" (.vstr new_name)) "multi" = dlookup d "multi" :=
                dlookup_dset_ne d "name" "multi" _ (by decide)
              simp [wfEntry, this, hm]

/-- Main invariant of the `buildSnakeGo` loop: on well-formed input it
succeeds, its output holds only well-formed records under snake-case keys,
it binds the snake-case variant of every processed key, it keeps every key
of the accumulator, and every key it binds is a key of the accumulator or
the snake-case variant of a processed key. -/
theorem buildSnakeGo_spec (entries : List (String × PyVal)) :
    ∀ snake0 : PropsDict,
    (∀ p ∈ entries, wfEntry p.2 = true) →
    (∀ p ∈ snake0, wfEntry p.2 = true) →
    ∃ snake, buildSnakeGo entries snake0 = some snake ∧
      (∀ p ∈ snake, wfEntry p.2 = true) ∧
      (∀ p ∈ entries, (dlookup snake (getSnakeCaseName p.1)).isSome) ∧
      (∀ j, (dlookup snake0 j).isSome → (dlookup snake j).isSome) ∧
      (∀ j, (dlookup snake j).isSome →
        (dlookup snake0 j).isSome ∨ ∃ p ∈ entries, j = getSnakeCaseName p.1) := by
  induction entries with
  | nil =>
      intro snake0 _ hsn
      exact ⟨snake0, rfl, hsn, by simp, fun _ h => h, fun j h => Or.inl h⟩
  | cons q rest ih =>
      intro snake0 hwf hsn
      obtain ⟨k, v⟩ := q
      have hv : wfEntry v = true := hwf (k, v) (by simp)
      obtain ⟨nv, hnv, hnvwf⟩ := _build_new_entry_of_wf (getSnakeCaseName k) v hv
      have hsn' : ∀ p ∈ dset snake0 (getSnakeCaseName k) nv, wfEntry p.2 = true := by
        intro p hp
        rcases mem_dset snake0 (getSnakeCaseName k) nv p hp with h | h
        · subst h; exact hnvwf
        · exact hsn p h
      obtain ⟨snake, hsnake, hwf1, hkeys, hpers, hfrom⟩ :=
        ih (dset snake0 (getSnakeCaseName k) nv)
          (fun p hp => hwf p (by simp [hp])) hsn'
      refine ⟨snake, ?_, hwf1, ?_, ?_, ?_⟩
      · simp [buildSnakeGo, hnv, hsnake]
      · intro p hp
        rcases List.mem_cons.mp hp with h | h
        · subst h
          exact hpers _ (by simp [dlookup_dset_self])
        · exact hkeys p h
      · intro j hj
        exact hpers j (by
          rcases dlookup_isSome_dset snake0 (getSnakeCaseName k) j nv |>.mpr (Or.inr hj) with h
          exact h)
      · intro j hj
        rcases hfrom j hj with h | ⟨p, hp, he⟩
        · rcases (dlookup_isSome_dset snake0 (getSnakeCaseName k) j nv).mp h with h1 | h1
          · exact Or.inr ⟨(k, v), by simp, h1.symm⟩
          · exact Or.inl h1
        · exact Or.inr ⟨p, by simp [hp], he⟩

/-- After one run of `insert_snake_case_variants`, the run succeeded, all
records are still well-formed, originally-present keys kept their
bindings, and the key set is closed under the snake-case transform. -/
theorem insert_snake_case_variants_spec (D : PropsDict)
    (hwf : ∀ p ∈ D, wfEntry p.2 = true) :
    ∃ D1, insert_snake_case_variants D = some D1 ∧
      (∀ p ∈ D1, wfEntry p.2 = true) ∧
      (∀ j, (dlookup D j).isSome → dlookup D1 j = dlookup D j) ∧
      (∀ j, (dlookup D1 j).isSome → (dlookup D1 (getSnakeCaseName j)).isSome) := by
  obtain ⟨snake, hsnake, hwfs, hkeys, _, hfrom⟩ :=
    buildSnakeGo_spec D [] hwf (by simp)
  refine ⟨dmergeKeep D snake, by simp [insert_snake_case_variants, hsnake], ?_, ?_, ?_⟩
  · intro p hp
    rcases mem_dmergeKeep snake D p hp with h | h
    · exact hwf p h
    · exact hwfs p h
  · intro j hj
    exact dlookup_dmergeKeep_of_isSome snake D j hj
  · intro j hj
    rcases (dlookup_dmergeKeep_isSome snake D j).mp hj with h | h
    · obtain ⟨v, hv⟩ := (dlookup_isSome_iff_mem D j).mp h
      have := hkeys (j, v) hv
      exact (dlookup_dmergeKeep_isSome snake D (getSnakeCaseName j)).mpr (Or.inr this)
    · rcases hfrom j h with h1 | ⟨p, _, he⟩
      · simp [dlookup] at h1
      · subst he
        rw [getSnakeCaseName_idem]
        exact (dlookup_dmergeKeep_isSome snake D (getSnakeCaseName p.1)).mpr (Or.inr h)

/-- C7: `insert_snake_case_variants` is a fixed point under repetition —
for every well-formed `PropsDict`, a second application returns the very
same mapping produced by the first (same key set, same entries), and the
merge of the snake-case variants never overwrites a key already present
in the original dictionary. -/
theorem insert_snake_case_variants_fixed_point (D D1 : PropsDict)
    (hwf : ∀ p ∈ D, wfEntry p.2 = true)
    (h1 : insert_snake_case_variants D = some D1) :
    insert_snake_case_variants D1 = some D1 ∧
      ∀ j, (dlookup D j).isSome → dlookup D1 j = dlookup D j := by
  obtain ⟨D1', he, hwf1, hkeep, hclosed⟩ := insert_snake_case_variants_spec D hwf
  rw [h1] at he
  injection he with he
  subst he
  refine ⟨?_, hkeep⟩
  obtain ⟨snake2, hsnake2, _, _, _, hfrom2⟩ :=
    buildSnakeGo_spec D1 [] hwf1 (by simp)
  have hall : ∀ p ∈ snake2, (dlookup D1 p.1).isSome := by
    intro p hp
    have hs : (dlookup snake2 p.1).isSome :=
      (dlookup_isSome_iff_mem snake2 p.1).mpr ⟨p.2, by simpa using hp⟩
    rcases hfrom2 p.1 hs with h | ⟨q, hq, he⟩
    · simp [dlookup] at h
    · have hq1 : (dlookup D1 q.1).isSome :=
        (dlookup_isSome_iff_mem D1 q.1).mpr ⟨q.2, by simpa using hq⟩
      rw [he]
      exact hclosed q.1 hq1
  simp [insert_snake_case_variants, hsnake2, dmergeKeep_eq_self snake2 D1 hall]

/-- C7 witness: the fixed-point theorem applied to the one-member
dictionary for `doThing`. -/
theorem insert_snake_case_variants_fixed_point_witness :
    (∀ p ∈ [("doThing", PyVal.vdict [("name", PyVal.vstr "doThing")])],
        wfEntry p.2 = true) ∧
      insert_snake_case_variants
          [("doThing", PyVal.vdict [("name", PyVal.vstr "doThing")])] =
        some [("doThing", PyVal.vdict [("name", PyVal.vstr "doThing")]),
              ("do_thing", PyVal.vdict [("name", PyVal.vstr "do_thing")])] ∧
      (insert_snake_case_variants
          [("doThing", PyVal.vdict [("name", PyVal.vstr "doThing")]),
           ("do_thing", PyVal.vdict [("name", PyVal.vstr "do_thing")])] =
        some [("doThing", PyVal.vdict [("name", PyVal.vstr "doThing")]),
              ("do_thing", PyVal.vdict [("name", PyVal.vstr "do_thing")])] ∧
        ∀ j, (dlookup [("doThing", PyVal.vdict [("name", PyVal.vstr "doThing")])] j).isSome →
          dlookup [("doThing", PyVal.vdict [("name", PyVal.vstr "doThing")]),
                   ("do_thing", PyVal.vdict [("name", PyVal.vstr "do_thing")])] j =
            dlookup [("doThing", PyVal.vdict [("name", PyVal.vstr "doThing")])] j) :=
  ⟨by decide, by rfl,
   insert_snake_case_variants_fixed_point _ _ (by decide) (by rfl)⟩

/-! ## Lemmas about the line splitting of `bytesToStrings` -/

theorem splitLinesGo_eq (cs : List Char) : ∀ acc : List Char,
    splitLinesGo cs acc =
      match specSegments cs with
      | [] => []
      | seg :: segs => String.mk (acc ++ seg) :: segs.map String.mk := by
  induction cs with
  | nil => intro acc; rfl
  | cons c rest ih =>
      intro acc
      by_cases hc : c = '\n'
      · subst hc
        have h0 := ih []
        simp only [splitLinesGo, if_true, specSegments]
        rw [h0]
        cases hs : specSegments rest with
        | nil => simp
        | cons s ss => simp
      · simp only [splitLinesGo, hc, if_false, specSegments]
        rw [ih (acc ++ [c])]
        cases hs : specSegments rest with
        | nil => simp [hc]
        | cons s ss => simp [hc]

/-- The loop of `bytesToStrings` computes exactly the claim-side
newline-terminated segments. -/
theorem splitLines_eq_specSegments (cdata : List Char) :
    splitLines cdata = (specSegments cdata).map String.mk := by
  rw [splitLines, splitLinesGo_eq cdata []]
  cases hs : specSegments cdata with
  | nil => simp
  | cons s ss => simp

/-- There is exactly one segment per newline character. -/
theorem specSegments_length (cs : List Char) :
    (specSegments cs).length = cs.count '\n' := by
  induction cs with
  | nil => simp [specSegments]
  | cons c rest ih =>
      by_cases hc : c = '\n'
      · subst hc
        simp [specSegments, List.count_cons, ih]
      · have hb : ¬ (c == '\n') = true := by simpa using hc
        simp only [specSegments, hc, if_false, List.count_cons]
        cases hs : specSegments rest with
        | nil =>
            rw [hs] at ih
            simp only [List.length_nil] at ih
            simp [← ih, hb]
        | cons s ss =>
            rw [hs] at ih
            simp only [List.length_cons] at ih
            simp [← ih, hb, hs]

/-- C10: on a payload that decompresses to `cdata`, `bytesToStrings`
returns the strings obtained by splitting `cdata` at its newlines in
order — exactly one string per newline character — and any bytes after
the last newline are silently discarded (they appear in no returned
string, since `specSegments` only keeps newline-terminated segments). -/
theorem bytesToStrings_splits_at_newlines (env : BuildEnv) (data : List Nat)
    (cdata : List Char) (hsz : data.length > 0)
    (hexp : env.expand data = some cdata) :
    bytesToStrings env data = (some ((specSegments cdata).map String.mk), 1) ∧
      ((specSegments cdata).map String.mk).length = cdata.count '\n' := by
  constructor
  · simp [bytesToStrings, byteExpand, hexp, splitLines_eq_specSegments, hsz]
  · simp [specSegments_length]

/-- C10 witness: a payload decompressing to `"Obj.doThing(self)->int\ntail"`
splits into the single line before the newline; the unterminated `tail`
is dropped. -/
theorem bytesToStrings_splits_at_newlines_witness :
    ([(1 : Nat), 2, 3].length > 0) ∧
      ((fun (_ : List Nat) => some ("Obj.doThing(self)->int\ntail".data)) [1, 2, 3] =
        some ("Obj.doThing(self)->int\ntail".data)) ∧
      (bytesToStrings
          ⟨fun _ => some ("Obj.doThing(self)->int\ntail".data),
           fun _ _ => ParseResult.noResult⟩ [1, 2, 3] =
          (some ((specSegments ("Obj.doThing(self)->int\ntail".data)).map String.mk), 1) ∧
        ((specSegments ("Obj.doThing(self)->int\ntail".data)).map String.mk).length =
          ("Obj.doThing(self)->int\ntail".data).count '\n') :=
  ⟨by decide, rfl,
   bytesToStrings_splits_at_newlines
     ⟨fun _ => some ("Obj.doThing(self)->int\ntail".data),
      fun _ _ => ParseResult.noResult⟩
     [1, 2, 3] ("Obj.doThing(self)->int\ntail".data) (by decide) rfl⟩

/-! ## The store claims -/

/-- C1: for a registered raw entry whose strings materialize and parse
successfully, the first `propsFor` call returns the built `PropsDict` and
replaces the stored entry by it; the second call returns the identical
dictionary, leaves the store unchanged and performs no decompression and
no parsing work. -/
theorem TypeKey_to_PropsDict_idempotent (env : BuildEnv) (st : Store)
    (k : TypeKey) (e : Entry) (strs : List String) (d0 d1 : PropsDict)
    (hreg : dlookup st k = some e)
    (hstrs : (entryStrings env e).1 = some strs)
    (hparse : env.typeInit k strs = .ok d0)
    (hins : insert_snake_case_variants d0 = some d1) :
    TypeKey_to_PropsDict env st k =
      (some d1, dset st k (.props d1), ⟨(entryStrings env e).2, 1⟩) ∧
      TypeKey_to_PropsDict env (dset st k (.props d1)) k =
        (some d1, dset st k (.props d1), ⟨0, 0⟩) := by
  constructor
  · cases e with
    | numkey strs' =>
        have hs : strs' = strs := by
          simpa [entryStrings] using hstrs
        subst hs
        simp [TypeKey_to_PropsDict, hreg, PySide_BuildSignatureProps,
              buildSignaturePropsTail, hparse, hins, entryStrings]
    | bytekey data =>
        rcases hbs : bytesToStrings env data with ⟨r, w⟩
        have hr : r = some strs := by
          have := hstrs
          rw [entryStrings, hbs] at this
          simpa using this
        subst hr
        simp [TypeKey_to_PropsDict, hreg, PySide_BuildSignatureProps, hbs,
              buildSignaturePropsTail, hparse, hins, entryStrings]
    | props d =>
        simp [entryStrings] at hstrs
  · simp [TypeKey_to_PropsDict, dlookup_dset_self]

/-- C1 witness: the lazy-build theorem applied to a one-key store holding
a plain string registration that parses to a one-member dictionary. -/
theorem TypeKey_to_PropsDict_idempotent_witness :
    (dlookup [(TypeKey.pair "mod" "Obj", Entry.numkey ["Obj.doThing(self)->int"])]
        (TypeKey.pair "mod" "Obj") =
      some (Entry.numkey ["Obj.doThing(self)->int"])) ∧
      (TypeKey_to_PropsDict
          ⟨fun _ => none,
           fun _ _ => ParseResult.ok [("doThing", PyVal.vdict [("name", PyVal.vstr "doThing")])]⟩
          [(TypeKey.pair "mod" "Obj", Entry.numkey ["Obj.doThing(self)->int"])]
          (TypeKey.pair "mod" "Obj") =
        (some [("doThing", PyVal.vdict [("name", PyVal.vstr "doThing")]),
               ("do_thing", PyVal.vdict [("name", PyVal.vstr "do_thing")])],
         dset [(TypeKey.pair "mod" "Obj", Entry.numkey ["Obj.doThing(self)->int"])]
           (TypeKey.pair "mod" "Obj")
           (Entry.props [("doThing", PyVal.vdict [("name", PyVal.vstr "doThing")]),
                         ("do_thing", PyVal.vdict [("name", PyVal.vstr "do_thing")])]),
         ⟨0, 1⟩) ∧
        TypeKey_to_PropsDict
          ⟨fun _ => none,
           fun _ _ => ParseResult.ok [("doThing", PyVal.vdict [("name", PyVal.vstr "doThing")])]⟩
          (dset [(TypeKey.pair "mod" "Obj", Entry.numkey ["Obj.doThing(self)->int"])]
            (TypeKey.pair "mod" "Obj")
            (Entry.props [("doThing", PyVal.vdict [("name", PyVal.vstr "doThing")]),
                          ("do_thing", PyVal.vdict [("name", PyVal.vstr "do_thing")])]))
          (TypeKey.pair "mod" "Obj") =
        (some [("doThing", PyVal.vdict [("name", PyVal.vstr "doThing")]),
               ("do_thing", PyVal.vdict [("name", PyVal.vstr "do_thing")])],
         dset [(TypeKey.pair "mod" "Obj", Entry.numkey ["Obj.doThing(self)->int"])]
           (TypeKey.pair "mod" "Obj")
           (Entry.props [("doThing", PyVal.vdict [("name", PyVal.vstr "doThing")]),
                         ("do_thing", PyVal.vdict [("name", PyVal.vstr "do_thing")])]),
         ⟨0, 0⟩)) :=
  ⟨rfl,
   TypeKey_to_PropsDict_idempotent
     ⟨fun _ => none,
      fun _ _ => ParseResult.ok [("doThing", PyVal.vdict [("name", PyVal.vstr "doThing")])]⟩
     [(TypeKey.pair "mod" "Obj", Entry.numkey ["Obj.doThing(self)->int"])]
     (TypeKey.pair "mod" "Obj")
     (Entry.numkey ["Obj.doThing(self)->int"])
     ["Obj.doThing(self)->int"]
     [("doThing", PyVal.vdict [("name", PyVal.vstr "doThing")])]
     [("doThing", PyVal.vdict [("name", PyVal.vstr "doThing")]),
      ("do_thing", PyVal.vdict [("name", PyVal.vstr "do_thing")])]
     rfl rfl rfl (by rfl)⟩

/-- C2: a compressed registration with `byteLength == 0` resolves without
ever invoking the decompressor — `bytesToStrings` treats the zero-size
payload as the explicitly-empty string list — and (the parser turning the
empty string list into the empty dict) the key resolves to the empty
`PropsDict`, which is cached.  The second conjunct states the
size-guarded decompressor call on the empty payload in isolation. -/
theorem TypeKey_to_PropsDict_empty_payload (env : BuildEnv) (st : Store)
    (k : TypeKey)
    (hreg : dlookup st k = some (.bytekey []))
    (hparse : env.typeInit k [] = .ok []) :
    TypeKey_to_PropsDict env st k = (some [], dset st k (.props []), ⟨0, 1⟩) ∧
      bytesToStrings env [] = (some [], 0) := by
  constructor
  · simp [TypeKey_to_PropsDict, hreg, PySide_BuildSignatureProps,
          bytesToStrings, splitLines, splitLinesGo,
          buildSignaturePropsTail, hparse, insert_snake_case_variants,
          buildSnakeGo, dmergeKeep]
  · rfl

/-- C2 witness: the empty compressed payload resolves to the empty dict
with zero decompressor calls. -/
theorem TypeKey_to_PropsDict_empty_payload_witness :
    (dlookup [(TypeKey.pair "mod" "Obj", Entry.bytekey [])]
        (TypeKey.pair "mod" "Obj") = some (Entry.bytekey [])) ∧
      (TypeKey_to_PropsDict
          ⟨fun _ => none, fun _ _ => ParseResult.ok []⟩
          [(TypeKey.pair "mod" "Obj", Entry.bytekey [])]
          (TypeKey.pair "mod" "Obj") =
        (some [],
         dset [(TypeKey.pair "mod" "Obj", Entry.bytekey [])]
           (TypeKey.pair "mod" "Obj") (Entry.props []),
         ⟨0, 1⟩) ∧
        bytesToStrings ⟨fun _ => none, fun _ _ => ParseResult.ok []⟩ [] =
          (some [], 0)) :=
  ⟨rfl,
   TypeKey_to_PropsDict_empty_payload
     ⟨fun _ => none, fun _ _ => ParseResult.ok []⟩
     [(TypeKey.pair "mod" "Obj", Entry.bytekey [])]
     (TypeKey.pair "mod" "Obj") rfl rfl⟩

/-- C3: when the stored compressed blob fails to decompress, `propsFor`
returns a hard error (no dictionary), after exactly one decompression
attempt (no retry) and zero parser invocations (no fallback to an empty
or partial dict), and the store is unchanged — the entry for the key is
left in its raw state. -/
theorem TypeKey_to_PropsDict_decompression_failure (env : BuildEnv)
    (st : Store) (k : TypeKey) (data : List Nat)
    (hreg : dlookup st k = some (.bytekey data))
    (hsz : data.length > 0)
    (hfail : env.expand data = none) :
    TypeKey_to_PropsDict env st k = (none, st, ⟨1, 0⟩) := by
  simp [TypeKey_to_PropsDict, hreg, PySide_BuildSignatureProps,
        bytesToStrings, hsz, byteExpand, hfail]

/-- C3 witness: a corrupt two-byte blob whose decompression fails. -/
theorem TypeKey_to_PropsDict_decompression_failure_witness :
    (dlookup [(TypeKey.pair "mod" "Obj", Entry.bytekey [7, 7])]
        (TypeKey.pair "mod" "Obj") = some (Entry.bytekey [7, 7])) ∧
      ([(7 : Nat), 7].length > 0) ∧
      ((fun (_ : List Nat) => (none : Option (List Char))) [7, 7] = none) ∧
      TypeKey_to_PropsDict
          ⟨fun _ => none, fun _ _ => ParseResult.ok []⟩
          [(TypeKey.pair "mod" "Obj", Entry.bytekey [7, 7])]
          (TypeKey.pair "mod" "Obj") =
        (none, [(TypeKey.pair "mod" "Obj", Entry.bytekey [7, 7])], ⟨1, 0⟩) :=
  ⟨rfl, by decide, rfl,
   TypeKey_to_PropsDict_decompression_failure
     ⟨fun _ => none, fun _ _ => ParseResult.ok []⟩
     [(TypeKey.pair "mod" "Obj", Entry.bytekey [7, 7])]
     (TypeKey.pair "mod" "Obj") [7, 7] rfl (by decide) rfl⟩

/-- C4 counterexample: with a parser that yields no result and no error,
`propsFor` on a registered key returns the empty dict but does NOT cache
it — the stored entry is still the raw registration afterwards, not the
empty `PropsDict`, so the key is not "empty but resolved". -/
theorem TypeKey_to_PropsDict_noResult_not_cached_counterexample :
    TypeKey_to_PropsDict
        ⟨fun _ => none, fun _ _ => ParseResult.noResult⟩
        [(TypeKey.single "m", Entry.numkey [])] (TypeKey.single "m") =
      (some [], [(TypeKey.single "m", Entry.numkey [])], ⟨0, 1⟩) ∧
      ¬ (dlookup
           (TypeKey_to_PropsDict
             ⟨fun _ => none, fun _ _ => ParseResult.noResult⟩
             [(TypeKey.single "m", Entry.numkey [])] (TypeKey.single "m")).2.1
           (TypeKey.single "m") =
         some (Entry.props [])) :=
  ⟨rfl, fun h => Entry.noConfusion (Option.some.inj h)⟩

/-- C4 amended: if the delegated parser yields no result and no error
occurred, `propsFor` returns the shared empty `PropsDict` instead of
failing (the module import is not failed), but the empty dict is not
written into the store: the entry for the key keeps its raw registration,
so the key remains "not yet resolved" and a later call repeats the build
work. -/
theorem TypeKey_to_PropsDict_noResult_returns_empty_uncached (env : BuildEnv)
    (st : Store) (k : TypeKey) (e : Entry) (strs : List String)
    (hreg : dlookup st k = some e)
    (hstrs : (entryStrings env e).1 = some strs)
    (hnores : env.typeInit k strs = .noResult) :
    TypeKey_to_PropsDict env st k = (some [], st, ⟨(entryStrings env e).2, 1⟩) := by
  cases e with
  | numkey strs' =>
      have hs : strs' = strs := by
        simpa [entryStrings] using hstrs
      subst hs
      simp [TypeKey_to_PropsDict, hreg, PySide_BuildSignatureProps,
            buildSignaturePropsTail, hnores, entryStrings]
  | bytekey data =>
      rcases hbs : bytesToStrings env data with ⟨r, w⟩
      have hr : r = some strs := by
        have := hstrs
        rw [entryStrings, hbs] at this
        simpa using this
      subst hr
      simp [TypeKey_to_PropsDict, hreg, PySide_BuildSignatureProps, hbs,
            buildSignaturePropsTail, hnores, entryStrings]
  | props d =>
      simp [entryStrings] at hstrs

/-- C4 amended witness: the no-result run on a concrete store. -/
theorem TypeKey_to_PropsDict_noResult_returns_empty_uncached_witness :
    (dlookup [(TypeKey.single "m", Entry.numkey [])] (TypeKey.single "m") =
      some (Entry.numkey [])) ∧
      TypeKey_to_PropsDict
          ⟨fun _ => none, fun _ _ => ParseResult.noResult⟩
          [(TypeKey.single "m", Entry.numkey [])] (TypeKey.single "m") =
        (some [], [(TypeKey.single "m", Entry.numkey [])], ⟨0, 1⟩) :=
  ⟨rfl,
   TypeKey_to_PropsDict_noResult_returns_empty_uncached
     ⟨fun _ => none, fun _ _ => ParseResult.noResult⟩
     [(TypeKey.single "m", Entry.numkey [])] (TypeKey.single "m")
     (Entry.numkey []) [] rfl rfl rfl⟩

/-! ## The resolver claims -/

/-- C5 counterexample: a module entity is NOT classified by
`GetClassOrModOf` — it is neither a type nor any of the checked function
or descriptor kinds, so the `Py_FatalError` branch is taken, although the
claim's variant set includes "module". -/
theorem GetClassOrModOf_module_fatal_counterexample :
    GetClassOrModOf
        ⟨.moduleObject, "PySide6.QtCore", none, none, none, none⟩ = .fatal ∧
      ¬ ∃ c, GetClassOrModOf
          ⟨.moduleObject, "PySide6.QtCore", none, none, none, none⟩ = .ok c := by
  refine ⟨rfl, ?_⟩
  rintro ⟨c, h⟩
  exact ClassifyResult.noConfusion h

/-- C5 amended: `GetClassOrModOf` takes the fatal, unrecoverable branch
exactly for the kinds outside {class, bound-method-like (C function),
static-method-like, method-descriptor, slot-wrapper-descriptor} — a
module among them; for a type, C function or static method it returns an
owning class or module, and for a descriptor kind it returns the
`__objclass__` owner when that attribute is present.  Under the
precondition that callers present only the supported kinds, the fatal
branch is unreachable. -/
theorem GetClassOrModOf_kinds (e : SigEntity) :
    (GetClassOrModOf e = .fatal ↔
      e.kind = .moduleObject ∨ e.kind = .other) ∧
      ((e.kind = .typeObject ∨ e.kind = .cfunction ∨ e.kind = .staticMethod) →
        ∃ c, GetClassOrModOf e = .ok c) ∧
      ((e.kind = .methodDescr ∨ e.kind = .wrapperDescr) →
        ∀ c, e.objclassAttr = some c → GetClassOrModOf e = .ok c) := by
  obtain ⟨kind, name, selfr, mde, mdo, objc⟩ := e
  cases kind with
  | typeObject =>
      refine ⟨by simp [GetClassOrModOf], fun _ => ⟨.cls name, rfl⟩,
              fun h => by simp at h⟩
  | moduleObject =>
      refine ⟨by simp [GetClassOrModOf], fun h => by simp at h,
              fun h => by simp at h⟩
  | cfunction =>
      refine ⟨by simp [GetClassOrModOf], fun _ => ⟨_, rfl⟩,
              fun h => by simp at h⟩
  | staticMethod =>
      refine ⟨by simp [GetClassOrModOf], fun _ => ⟨_, rfl⟩,
              fun h => by simp at h⟩
  | methodDescr =>
      refine ⟨by cases objc <;> simp [GetClassOrModOf, _get_class_of_descr],
              fun h => by simp at h, ?_⟩
      intro _ c hc
      simp only at hc
      simp [GetClassOrModOf, _get_class_of_descr, hc]
  | wrapperDescr =>
      refine ⟨by cases objc <;> simp [GetClassOrModOf, _get_class_of_descr],
              fun h => by simp at h, ?_⟩
      intro _ c hc
      simp only at hc
      simp [GetClassOrModOf, _get_class_of_descr, hc]
  | other =>
      refine ⟨by simp [GetClassOrModOf], fun h => by simp at h,
              fun h => by simp at h⟩

/-- C5 amended witness: the classification applied to one entity of each
kind. -/
theorem GetClassOrModOf_kinds_witness :
    GetClassOrModOf ⟨.moduleObject, "m", none, none, none, none⟩ = .fatal ∧
      GetClassOrModOf ⟨.other, "x", none, none, none, none⟩ = .fatal ∧
      (∃ c, GetClassOrModOf
        ⟨.cfunction, "f", some (.refType "Widget"), none, none, none⟩ = .ok c) ∧
      GetClassOrModOf
          ⟨.methodDescr, "g", none, none, none, some (.cls "Widget")⟩ =
        .ok (.cls "Widget") :=
  ⟨(GetClassOrModOf_kinds ⟨.moduleObject, "m", none, none, none, none⟩).1.mpr
      (Or.inl rfl),
   (GetClassOrModOf_kinds ⟨.other, "x", none, none, none, none⟩).1.mpr
      (Or.inr rfl),
   (GetClassOrModOf_kinds
      ⟨.cfunction, "f", some (.refType "Widget"), none, none, none⟩).2.1
      (Or.inr (Or.inl rfl)),
   (GetClassOrModOf_kinds
      ⟨.methodDescr, "g", none, none, none, some (.cls "Widget")⟩).2.2
      (Or.inl rfl) (.cls "Widget") rfl⟩

/-- C6: `GetTypeKey` returns the two-component key
`(__module__, __qualname__)` when both attributes are declared; when the
`__module__` lookup fails (the entity is a module) it returns the
single-component key built from the plain `__name__`; an entity with a
`__module__` but no `__qualname__` hits `Py_FatalError`. -/
theorem GetTypeKey_spec :
    (∀ (e : TMEntity) (m q : String),
        e.moduleAttr = some m → e.qualnameAttr = some q →
        GetTypeKey e = .key (.pair m q)) ∧
      (∀ (e : TMEntity) (n : String),
        e.moduleAttr = none → e.nameAttr = some n →
        GetTypeKey e = .key (.single n)) ∧
      (∀ (e : TMEntity) (m : String),
        e.moduleAttr = some m → e.qualnameAttr = none →
        GetTypeKey e = .fatal) := by
  refine ⟨?_, ?_, ?_⟩
  · intro e m q hm hq
    simp [GetTypeKey, hm, hq]
  · intro e n hm hn
    simp [GetTypeKey, hm, hn]
  · intro e m hm hq
    simp [GetTypeKey, hm, hq]

/-- C6 witness: the key derivation on a class, a module, and a malformed
entity. -/
theorem GetTypeKey_spec_witness :
    GetTypeKey ⟨some "PySide6.QtWidgets", some "QWidget", some "QWidget"⟩ =
        .key (.pair "PySide6.QtWidgets" "QWidget") ∧
      GetTypeKey ⟨none, none, some "PySide6.QtWidgets"⟩ =
        .key (.single "PySide6.QtWidgets") ∧
      GetTypeKey ⟨some "PySide6.QtWidgets", none, some "broken"⟩ = .fatal :=
  ⟨GetTypeKey_spec.1 ⟨some "PySide6.QtWidgets", some "QWidget", some "QWidget"⟩
      "PySide6.QtWidgets" "QWidget" rfl rfl,
   GetTypeKey_spec.2.1 ⟨none, none, some "PySide6.QtWidgets"⟩
      "PySide6.QtWidgets" rfl rfl,
   GetTypeKey_spec.2.2 ⟨some "PySide6.QtWidgets", none, some "broken"⟩
      "PySide6.QtWidgets" rfl rfl⟩

/-! ## Lemmas about `add_more_getsets` -/

/-- Re-binding a key to the value it already has is a no-op. -/
theorem dset_eq_of_dlookup {κ α : Type} [DecidableEq κ] (d : List (κ × α))
    (k : κ) (v : α) (h : dlookup d k = some v) : dset d k v = d := by
  induction d with
  | nil => simp [dlookup] at h
  | cons p rest ih =>
      obtain ⟨k0, v0⟩ := p
      by_cases h0 : k0 = k
      · subst h0
        simp only [dlookup, if_pos rfl] at h
        injection h with h
        simp [dset, h]
      · simp only [dlookup, h0, if_false] at h
        simp [dset, h0, ih h]

/-- Lemma: `_fixup_getset` is idempotent on its successful output. -/
theorem _fixup_getset_idem (t : PyTypeObj) (name : String) (g g' : PyGetSetDef)
    (h : _fixup_getset t name g = (true, g')) :
    _fixup_getset t name g' = (true, g') := by
  unfold _fixup_getset at h ⊢
  cases hg : findGetSet t.tp_getset name with
  | some gg =>
      rw [hg] at h
      injection h with _ h
      subst h
      rfl
  | none =>
      rw [hg] at h
      cases hm : findMember t.tp_members name with
      | some mm => exact rfl
      | none =>
          rw [hm] at h
          simp at h

/-- The installation loop leaves a name that no processed getset bears
untouched. -/
theorem add_more_getsets_go_frame (t : PyTypeObj) (gs : List PyGetSetDef) :
    ∀ (d : List (String × DictEntry)) (i a : Nat) (dd : Option DictEntry)
      (j : String), (∀ g ∈ gs, g.name ≠ j) →
      dlookup (add_more_getsets_go t gs d i a dd).dict j = dlookup d j := by
  induction gs with
  | nil => intro d i a dd j _; rfl
  | cons gsp rest ih =>
      intro d i a dd j hj
      have hne : gsp.name ≠ j := hj gsp (by simp)
      have hrest : ∀ g ∈ rest, g.name ≠ j := fun g hg => hj g (by simp [hg])
      cases hl : dlookup d gsp.name with
      | some have_descr =>
          rcases hf : _fixup_getset t gsp.name gsp with ⟨found, gsp'⟩
          cases found
          · simp only [add_more_getsets_go, hl, hf]
            exact ih d _ _ _ j hrest
          · simp only [add_more_getsets_go, hl, hf]
            rw [ih _ _ _ _ j hrest]
            exact dlookup_dset_ne d gsp.name j _ hne
      | none =>
          simp only [add_more_getsets_go, hl]
          rw [ih _ _ _ _ j hrest]
          exact dlookup_dset_ne d gsp.name j _ hne

/-- The installation loop never removes a bound name. -/
theorem add_more_getsets_go_isSome (t : PyTypeObj) (gs : List PyGetSetDef) :
    ∀ (d : List (String × DictEntry)) (i a : Nat) (dd : Option DictEntry)
      (j : String), (dlookup d j).isSome →
      (dlookup (add_more_getsets_go t gs d i a dd).dict j).isSome := by
  induction gs with
  | nil => intro d i a dd j h; exact h
  | cons gsp rest ih =>
      intro d i a dd j hj
      cases hl : dlookup d gsp.name with
      | some have_descr =>
          rcases hf : _fixup_getset t gsp.name gsp with ⟨found, gsp'⟩
          cases found
          · simp only [add_more_getsets_go, hl, hf]
            exact ih d _ _ _ j hj
          · simp only [add_more_getsets_go, hl, hf]
            exact ih _ _ _ _ j
              ((dlookup_isSome_dset d gsp.name j _).mpr (Or.inr hj))
      | none =>
          simp only [add_more_getsets_go, hl]
          exact ih _ _ _ _ j
            ((dlookup_isSome_dset d gsp.name j _).mpr (Or.inr hj))

/-- A failed `_fixup_getset` leaves the getset def unchanged and means the
name is in neither static table. -/
theorem _fixup_getset_false (t : PyTypeObj) (name : String) (g g' : PyGetSetDef)
    (h : _fixup_getset t name g = (false, g')) :
    g' = g ∧ findGetSet t.tp_getset name = none ∧
      findMember t.tp_members name = none := by
  unfold _fixup_getset at h
  cases hg : findGetSet t.tp_getset name with
  | some gg => rw [hg] at h; simp at h
  | none =>
      rw [hg] at h
      cases hm : findMember t.tp_members name with
      | some mm => rw [hm] at h; simp at h
      | none =>
          rw [hm] at h
          injection h with _ h
          exact ⟨h.symm, rfl, rfl⟩

/-- Lemma: `_fixup_getset` never changes the slot name. -/
theorem _fixup_getset_name (t : PyTypeObj) (name : String) (b : Bool)
    (g g' : PyGetSetDef) (h : _fixup_getset t name g = (b, g')) :
    g'.name = g.name := by
  unfold _fixup_getset at h
  cases hg : findGetSet t.tp_getset name with
  | some gg =>
      rw [hg] at h
      injection h with _ h
      subst h
      rfl
  | none =>
      rw [hg] at h
      cases hm : findMember t.tp_members name with
      | some mm =>
          rw [hm] at h
          injection h with _ h
          subst h
          rfl
      | none =>
          rw [hm] at h
          injection h with _ h
          subst h
          rfl

/-- Re-running the installation loop on its own output is the identity:
the dict and the (pre-filled) getset array come out unchanged, for any
counter and out-parameter start values of either run.  Requires the slot
names to be pairwise distinct (as they are in the static arrays the
patcher is called with) and the readiness invariant that every
static-table name is already bound in the dict. -/
theorem add_more_getsets_go_idem (t : PyTypeObj) (gs : List PyGetSetDef) :
    ∀ (d : List (String × DictEntry)) (i a i2 a2 : Nat)
      (dd dd2 : Option DictEntry),
    (gs.map PyGetSetDef.name).Nodup →
    (∀ g ∈ gs, ((findGetSet t.tp_getset g.name).isSome ∨
        (findMember t.tp_members g.name).isSome) → (dlookup d g.name).isSome) →
    (add_more_getsets_go t (add_more_getsets_go t gs d i a dd).gsps
        (add_more_getsets_go t gs d i a dd).dict i2 a2 dd2).dict =
      (add_more_getsets_go t gs d i a dd).dict ∧
    (add_more_getsets_go t (add_more_getsets_go t gs d i a dd).gsps
        (add_more_getsets_go t gs d i a dd).dict i2 a2 dd2).gsps =
      (add_more_getsets_go t gs d i a dd).gsps := by
  induction gs with
  | nil => intro d i a i2 a2 dd dd2 _ _; exact ⟨rfl, rfl⟩
  | cons gsp rest ih =>
      intro d i a i2 a2 dd dd2 hnodup hpre
      have hnotin : ∀ g ∈ rest, g.name ≠ gsp.name := by
        intro g hg he
        have := (List.nodup_cons.mp hnodup).1
        exact this (by
          rw [← he]
          exact List.mem_map_of_mem PyGetSetDef.name hg)
      have hnodup' : (rest.map PyGetSetDef.name).Nodup :=
        (List.nodup_cons.mp hnodup).2
      cases hl : dlookup d gsp.name with
      | none =>
          have hstat : ¬ ((findGetSet t.tp_getset gsp.name).isSome ∨
              (findMember t.tp_members gsp.name).isSome) := by
            intro hcon
            have := hpre gsp (by simp) hcon
            rw [hl] at this
            simp at this
          have hfix : _fixup_getset t gsp.name gsp = (false, gsp) := by
            unfold _fixup_getset
            cases hg : findGetSet t.tp_getset gsp.name with
            | some gg => exact absurd (Or.inl (by simp [hg])) hstat
            | none =>
                cases hm : findMember t.tp_members gsp.name with
                | some mm => exact absurd (Or.inr (by simp [hm])) hstat
                | none => rfl
          have hpre' : ∀ g ∈ rest,
              ((findGetSet t.tp_getset g.name).isSome ∨
                (findMember t.tp_members g.name).isSome) →
              (dlookup (dset d gsp.name (DictEntry.getsetDescr t.typeName gsp))
                g.name).isSome := by
            intro g hg hc
            exact (dlookup_isSome_dset d gsp.name g.name _).mpr
              (Or.inr (hpre g (by simp [hg]) hc))
          have hr1name :
              dlookup (add_more_getsets_go t rest
                (dset d gsp.name (DictEntry.getsetDescr t.typeName gsp))
                (i + 1) a dd).dict gsp.name =
              some (DictEntry.getsetDescr t.typeName gsp) := by
            rw [add_more_getsets_go_frame t rest _ _ _ _ gsp.name hnotin]
            exact dlookup_dset_self d gsp.name _
          have hih := ih (dset d gsp.name (DictEntry.getsetDescr t.typeName gsp))
            (i + 1) a i2 (if gsp.name = "__doc__" then a2 else a2 + 1) dd
            (if gsp.name = "__doc__"
              then some (DictEntry.getsetDescr t.typeName gsp) else dd2)
            hnodup' hpre'
          simp only [add_more_getsets_go, hl, hfix, hr1name]
          exact ⟨hih.1, by rw [hih.2]⟩
      | some have_descr =>
          rcases hf : _fixup_getset t gsp.name gsp with ⟨found, gsp'⟩
          cases found with
          | false =>
              obtain ⟨hge, hgnone, hmnone⟩ := _fixup_getset_false t gsp.name gsp gsp' hf
              subst hge
              have hr1some :
                  (dlookup (add_more_getsets_go t rest d i
                    (if gsp'.name = "__doc__" then a else a + 1)
                    (if gsp'.name = "__doc__" then some have_descr else dd)).dict
                    gsp'.name).isSome := by
                exact add_more_getsets_go_isSome t rest d i _ _ gsp'.name
                  (by rw [hl]; rfl)
              cases hl2 : dlookup (add_more_getsets_go t rest d i
                  (if gsp'.name = "__doc__" then a else a + 1)
                  (if gsp'.name = "__doc__" then some have_descr else dd)).dict
                  gsp'.name with
              | none => rw [hl2] at hr1some; simp at hr1some
              | some have2 =>
                  have hih := ih d i
                    (if gsp'.name = "__doc__" then a else a + 1) i2
                    (if gsp'.name = "__doc__" then a2 else a2 + 1)
                    (if gsp'.name = "__doc__" then some have_descr else dd)
                    (if gsp'.name = "__doc__" then some have2 else dd2)
                    hnodup' (fun g hg => hpre g (by simp [hg]))
                  simp only [add_more_getsets_go, hl, hf, hl2]
                  exact ⟨hih.1, by rw [hih.2]⟩
          | true =>
              have hname : gsp'.name = gsp.name :=
                _fixup_getset_name t gsp.name true gsp gsp' hf
              have hfix2 : _fixup_getset t gsp'.name gsp' = (true, gsp') := by
                rw [hname]
                exact _fixup_getset_idem t gsp.name gsp gsp' hf
              have hnotin' : ∀ g ∈ rest, g.name ≠ gsp'.name := by
                intro g hg
                rw [hname]
                exact hnotin g hg
              have hpre' : ∀ g ∈ rest,
                  ((findGetSet t.tp_getset g.name).isSome ∨
                    (findMember t.tp_members g.name).isSome) →
                  (dlookup (dset d gsp.name
                    (DictEntry.getsetDescr t.typeName gsp')) g.name).isSome := by
                intro g hg hc
                exact (dlookup_isSome_dset d gsp.name g.name _).mpr
                  (Or.inr (hpre g (by simp [hg]) hc))
              have hr1name :
                  dlookup (add_more_getsets_go t rest
                    (dset d gsp.name (DictEntry.getsetDescr t.typeName gsp'))
                    (i + 1) (if gsp.name = "__doc__" then a else a + 1)
                    (if gsp.name = "__doc__" then some have_descr else dd)).dict
                    gsp'.name =
                  some (DictEntry.getsetDescr t.typeName gsp') := by
                rw [add_more_getsets_go_frame t rest _ _ _ _ gsp'.name hnotin']
                rw [hname]
                exact dlookup_dset_self d gsp.name _
              have hih := ih (dset d gsp.name (DictEntry.getsetDescr t.typeName gsp'))
                (i + 1) (if gsp.name = "__doc__" then a else a + 1) (i2 + 1)
                (if gsp'.name = "__doc__" then a2 else a2 + 1)
                (if gsp.name = "__doc__" then some have_descr else dd)
                (if gsp'.name = "__doc__"
                  then some (DictEntry.getsetDescr t.typeName gsp') else dd2)
                hnodup' hpre'
              have hsetid :
                  dset (add_more_getsets_go t rest
                    (dset d gsp.name (DictEntry.getsetDescr t.typeName gsp'))
                    (i + 1) (if gsp.name = "__doc__" then a else a + 1)
                    (if gsp.name = "__doc__" then some have_descr else dd)).dict
                    gsp'.name (DictEntry.getsetDescr t.typeName gsp') =
                  (add_more_getsets_go t rest
                    (dset d gsp.name (DictEntry.getsetDescr t.typeName gsp'))
                    (i + 1) (if gsp.name = "__doc__" then a else a + 1)
                    (if gsp.name = "__doc__" then some have_descr else dd)).dict :=
                dset_eq_of_dlookup _ _ _ hr1name
              simp only [add_more_getsets_go, hl, hf, hr1name, hfix2, hsetid]
              exact ⟨hih.1, by rw [hih.2]⟩

theorem findGetSet_isSome_iff (gs : List PyGetSetDef) (n : String) :
    (findGetSet gs n).isSome ↔ ∃ g ∈ gs, g.name = n := by
  induction gs with
  | nil => simp [findGetSet]
  | cons g rest ih =>
      by_cases h : g.name = n
      · simp [findGetSet, h]
      · simp only [findGetSet, h, if_false, ih, List.mem_cons]
        constructor
        · rintro ⟨g', hg', hn⟩
          exact ⟨g', Or.inr hg', hn⟩
        · rintro ⟨g', hg' | hg', hn⟩
          · subst hg'; exact absurd hn h
          · exact ⟨g', hg', hn⟩

theorem findMember_isSome_iff (ms : List PyMemberDef) (n : String) :
    (findMember ms n).isSome ↔ ∃ m ∈ ms, m.name = n := by
  induction ms with
  | nil => simp [findMember]
  | cons m rest ih =>
      by_cases h : m.name = n
      · simp [findMember, h]
      · simp only [findMember, h, if_false, ih, List.mem_cons]
        constructor
        · rintro ⟨m', hm', hn⟩
          exact ⟨m', Or.inr hm', hn⟩
        · rintro ⟨m', hm' | hm', hn⟩
          · subst hm'; exact absurd hn h
          · exact ⟨m', hm', hn⟩

theorem readyGetsets_isSome (tname : String) (gs : List PyGetSetDef) :
    ∀ (dict : List (String × DictEntry)) (j : String),
    ((dlookup dict j).isSome ∨ ∃ g ∈ gs, g.name = j) →
    (dlookup (readyGetsets tname gs dict) j).isSome := by
  induction gs with
  | nil =>
      intro dict j h
      rcases h with h | ⟨g, hg, _⟩
      · exact h
      · cases hg
  | cons g rest ih =>
      intro dict j h
      simp only [readyGetsets]
      by_cases hp : (dlookup dict g.name).isSome
      · rw [if_pos hp]
        rcases h with h | ⟨g', hg', hn⟩
        · exact ih dict j (Or.inl h)
        · rcases List.mem_cons.mp hg' with he | he
          · subst he
            exact ih dict j (Or.inl (hn ▸ hp))
          · exact ih dict j (Or.inr ⟨g', he, hn⟩)
      · rw [if_neg hp]
        rcases h with h | ⟨g', hg', hn⟩
        · exact ih _ j (Or.inl ((dlookup_isSome_dset dict g.name j _).mpr (Or.inr h)))
        · rcases List.mem_cons.mp hg' with he | he
          · exact ih _ j (Or.inl ((dlookup_isSome_dset dict g.name j _).mpr (Or.inl (he ▸ hn))))
          · exact ih _ j (Or.inr ⟨g', he, hn⟩)

theorem readyMembers_isSome (tname : String) (ms : List PyMemberDef) :
    ∀ (dict : List (String × DictEntry)) (j : String),
    ((dlookup dict j).isSome ∨ ∃ m ∈ ms, m.name = j) →
    (dlookup (readyMembers tname ms dict) j).isSome := by
  induction ms with
  | nil =>
      intro dict j h
      rcases h with h | ⟨m, hm, _⟩
      · exact h
      · cases hm
  | cons m rest ih =>
      intro dict j h
      simp only [readyMembers]
      by_cases hp : (dlookup dict m.name).isSome
      · rw [if_pos hp]
        rcases h with h | ⟨m', hm', hn⟩
        · exact ih dict j (Or.inl h)
        · rcases List.mem_cons.mp hm' with he | he
          · subst he
            exact ih dict j (Or.inl (hn ▸ hp))
          · exact ih dict j (Or.inr ⟨m', he, hn⟩)
      · rw [if_neg hp]
        rcases h with h | ⟨m', hm', hn⟩
        · exact ih _ j (Or.inl ((dlookup_isSome_dset dict m.name j _).mpr (Or.inr h)))
        · rcases List.mem_cons.mp hm' with he | he
          · exact ih _ j (Or.inl ((dlookup_isSome_dset dict m.name j _).mpr (Or.inl (he ▸ hn))))
          · exact ih _ j (Or.inr ⟨m', he, hn⟩)

theorem readyGetsets_eq_of_present (tname : String) (gs : List PyGetSetDef) :
    ∀ dict : List (String × DictEntry),
    (∀ g ∈ gs, (dlookup dict g.name).isSome) →
    readyGetsets tname gs dict = dict := by
  induction gs with
  | nil => intro dict _; rfl
  | cons g rest ih =>
      intro dict h
      have hg := h g (by simp)
      simp only [readyGetsets, hg, if_true]
      exact ih dict (fun g' hg' => h g' (by simp [hg']))

theorem readyMembers_eq_of_present (tname : String) (ms : List PyMemberDef) :
    ∀ dict : List (String × DictEntry),
    (∀ m ∈ ms, (dlookup dict m.name).isSome) →
    readyMembers tname ms dict = dict := by
  induction ms with
  | nil => intro dict _; rfl
  | cons m rest ih =>
      intro dict h
      have hm := h m (by simp)
      simp only [readyMembers, hm, if_true]
      exact ih dict (fun m' hm' => h m' (by simp [hm']))

/-- The installation loop only reads the type's name and static tables,
so two types agreeing on them run it identically. -/
theorem add_more_getsets_go_congr (t t' : PyTypeObj)
    (hn : t.typeName = t'.typeName) (hg : t.tp_getset = t'.tp_getset)
    (hm : t.tp_members = t'.tp_members) (gs : List PyGetSetDef) :
    ∀ (d : List (String × DictEntry)) (i a : Nat) (dd : Option DictEntry),
    add_more_getsets_go t gs d i a dd = add_more_getsets_go t' gs d i a dd := by
  have hfix : ∀ n g, _fixup_getset t n g = _fixup_getset t' n g := by
    intro n g
    unfold _fixup_getset
    rw [hg, hm]
  induction gs with
  | nil => intro d i a dd; rfl
  | cons gsp rest ih =>
      intro d i a dd
      cases hl : dlookup d gsp.name with
      | some hd =>
          rcases hf : _fixup_getset t' gsp.name gsp with ⟨found, gsp'⟩
          have hf0 : _fixup_getset t gsp.name gsp = (found, gsp') := by
            rw [hfix]; exact hf
          cases found
          · simp only [add_more_getsets_go, hl, hf, hf0, ih]
          · simp only [add_more_getsets_go, hl, hf, hf0, hn, ih]
      | none =>
          simp only [add_more_getsets_go, hl, hn, ih]

/-- Lemma: `PyType_Ready` on a type whose static slots are all already
bound in the dict is the identity. -/
theorem pyTypeReady_eq_of_present (t : PyTypeObj)
    (h1 : ∀ g ∈ t.tp_getset, (dlookup t.dict g.name).isSome)
    (h2 : ∀ m ∈ t.tp_members, (dlookup t.dict m.name).isSome) :
    pyTypeReady t = t := by
  unfold pyTypeReady
  rw [readyGetsets_eq_of_present _ _ _ h1, readyMembers_eq_of_present _ _ _ h2]

/-- After `PyType_Ready`, every static slot name is bound in the dict. -/
theorem static_present_after_ready (t : PyTypeObj) :
    (∀ g ∈ t.tp_getset, (dlookup (pyTypeReady t).dict g.name).isSome) ∧
    (∀ m ∈ t.tp_members, (dlookup (pyTypeReady t).dict m.name).isSome) := by
  constructor
  · intro g hg
    exact readyMembers_isSome _ _ _ _
      (Or.inl (readyGetsets_isSome _ _ _ _ (Or.inr ⟨g, hg, rfl⟩)))
  · intro m hm
    exact readyMembers_isSome _ _ _ _ (Or.inr ⟨m, hm, rfl⟩)

/-- C9 amended: running the descriptor installation twice with the same
getset array is observably idempotent — the second run returns the same
type (identical dict) and the same pre-filled getset array — provided the
slot names are pairwise distinct, as in the arrays the patcher is built
with.  (The second run does not, however, uniformly "skip": names backed
by a static getset or member slot are re-installed with an equal
descriptor, and only unbacked names are skipped; see the counterexample.) -/
theorem add_more_getsets_idempotent (t : PyTypeObj) (gsps : List PyGetSetDef)
    (hnodup : (gsps.map PyGetSetDef.name).Nodup) :
    (add_more_getsets (add_more_getsets t gsps).1
        (add_more_getsets t gsps).2.gsps).1 =
      (add_more_getsets t gsps).1 ∧
    (add_more_getsets (add_more_getsets t gsps).1
        (add_more_getsets t gsps).2.gsps).2.gsps =
      (add_more_getsets t gsps).2.gsps := by
  have hpre0 : ∀ g ∈ gsps,
      ((findGetSet (pyTypeReady t).tp_getset g.name).isSome ∨
        (findMember (pyTypeReady t).tp_members g.name).isSome) →
      (dlookup (pyTypeReady t).dict g.name).isSome := by
    intro g _ hc
    rcases hc with hc | hc
    · obtain ⟨gg, hgg, hname⟩ := (findGetSet_isSome_iff _ _).mp hc
      exact hname ▸ (static_present_after_ready t).1 gg hgg
    · obtain ⟨mm, hmm, hname⟩ := (findMember_isSome_iff _ _).mp hc
      exact hname ▸ (static_present_after_ready t).2 mm hmm
  have hidem := add_more_getsets_go_idem (pyTypeReady t) gsps
    (pyTypeReady t).dict 0 0 0 0 none none hnodup hpre0
  have hready1 : pyTypeReady
      (PyTypeObj.mk (pyTypeReady t).typeName (pyTypeReady t).tp_getset
        (pyTypeReady t).tp_members
        (add_more_getsets_go (pyTypeReady t) gsps
          (pyTypeReady t).dict 0 0 none).dict) =
      PyTypeObj.mk (pyTypeReady t).typeName (pyTypeReady t).tp_getset
        (pyTypeReady t).tp_members
        (add_more_getsets_go (pyTypeReady t) gsps
          (pyTypeReady t).dict 0 0 none).dict := by
    apply pyTypeReady_eq_of_present
    · intro g hg
      exact add_more_getsets_go_isSome _ _ _ _ _ _ _
        ((static_present_after_ready t).1 g hg)
    · intro m hm
      exact add_more_getsets_go_isSome _ _ _ _ _ _ _
        ((static_present_after_ready t).2 m hm)
  have hcongr := add_more_getsets_go_congr
    (PyTypeObj.mk (pyTypeReady t).typeName (pyTypeReady t).tp_getset
      (pyTypeReady t).tp_members
      (add_more_getsets_go (pyTypeReady t) gsps
        (pyTypeReady t).dict 0 0 none).dict)
    (pyTypeReady t) rfl rfl rfl
    (add_more_getsets_go (pyTypeReady t) gsps (pyTypeReady t).dict 0 0 none).gsps
    (add_more_getsets_go (pyTypeReady t) gsps (pyTypeReady t).dict 0 0 none).dict
    0 0 none
  simp only [add_more_getsets]
  rw [hready1, hcongr, hidem.1, hidem.2]
  exact ⟨rfl, rfl⟩

/-- C9 amended witness: the double run on a type with a static `__doc__`
getset slot. -/
theorem add_more_getsets_idempotent_witness :
    (([PyGetSetDef.mk "__doc__" 10 none none none].map PyGetSetDef.name).Nodup) ∧
      ((add_more_getsets
          (add_more_getsets
            (PyTypeObj.mk "T" [PyGetSetDef.mk "__doc__" 1 (some 2) (some "d") none] [] [])
            [PyGetSetDef.mk "__doc__" 10 none none none]).1
          (add_more_getsets
            (PyTypeObj.mk "T" [PyGetSetDef.mk "__doc__" 1 (some 2) (some "d") none] [] [])
            [PyGetSetDef.mk "__doc__" 10 none none none]).2.gsps).1 =
        (add_more_getsets
          (PyTypeObj.mk "T" [PyGetSetDef.mk "__doc__" 1 (some 2) (some "d") none] [] [])
          [PyGetSetDef.mk "__doc__" 10 none none none]).1 ∧
      (add_more_getsets
          (add_more_getsets
            (PyTypeObj.mk "T" [PyGetSetDef.mk "__doc__" 1 (some 2) (some "d") none] [] [])
            [PyGetSetDef.mk "__doc__" 10 none none none]).1
          (add_more_getsets
            (PyTypeObj.mk "T" [PyGetSetDef.mk "__doc__" 1 (some 2) (some "d") none] [] [])
            [PyGetSetDef.mk "__doc__" 10 none none none]).2.gsps).2.gsps =
        (add_more_getsets
          (PyTypeObj.mk "T" [PyGetSetDef.mk "__doc__" 1 (some 2) (some "d") none] [] [])
          [PyGetSetDef.mk "__doc__" 10 none none none]).2.gsps) :=
  ⟨by decide,
   add_more_getsets_idempotent
     (PyTypeObj.mk "T" [PyGetSetDef.mk "__doc__" 1 (some 2) (some "d") none] [] [])
     [PyGetSetDef.mk "__doc__" 10 none none none] (by decide)⟩

/-- C9 counterexample: the second installation run does not "detect an
already-installed matching descriptor and skip re-installation rather
than erroring".  For a name backed by a static getset slot the second run
re-creates and re-installs the descriptor (one installation, not zero);
for an unbacked name the second run does skip, but only after reaching
the debug `assert(false)` that the first run never reached. -/
theorem add_more_getsets_second_run_counterexample :
    (add_more_getsets
        (add_more_getsets
          (PyTypeObj.mk "T" [PyGetSetDef.mk "__doc__" 1 (some 2) (some "d") none] [] [])
          [PyGetSetDef.mk "__doc__" 10 none none none]).1
        (add_more_getsets
          (PyTypeObj.mk "T" [PyGetSetDef.mk "__doc__" 1 (some 2) (some "d") none] [] [])
          [PyGetSetDef.mk "__doc__" 10 none none none]).2.gsps).2.installs = 1 ∧
      (add_more_getsets
          (add_more_getsets (PyTypeObj.mk "U" [] [] [])
            [PyGetSetDef.mk "__signature__" 5 none none none]).1
          (add_more_getsets (PyTypeObj.mk "U" [] [] [])
            [PyGetSetDef.mk "__signature__" 5 none none none]).2.gsps).2.assertViolations = 1 ∧
      (add_more_getsets (PyTypeObj.mk "U" [] [] [])
        [PyGetSetDef.mk "__signature__" 5 none none none]).2.assertViolations = 0 := by
  decide

/-! ## Lemmas about the heap model of `_build_new_entry` -/

theorem Heap.look_mk_cons_ne (mem : List (Nat × HObj)) (nx : Nat) (o : HObj)
    (a : Nat) (ha : a ≠ nx) :
    (Heap.mk ((nx, o) :: mem) (nx + 1)).look a = dlookup mem a := by
  show dlookup ((nx, o) :: mem) a = dlookup mem a
  simp [dlookup, Ne.symm ha]

theorem Heap.look_write_ne (h : Heap) (b : Nat) (o : HObj) (a : Nat)
    (ha : a ≠ b) : (h.write b o).look a = h.look a :=
  dlookup_dset_ne h.mem b a o (Ne.symm ha)

/-- The `multi`-copy loop only allocates fresh objects and mutates those:
the next-address counter never decreases and every address below the
starting counter still holds its original object. -/
theorem copyMultiGoH_frame (newName : Nat) (es : List Nat) :
    ∀ (h : Heap) (ds : List Nat) (h' : Heap),
    copyMultiGoH newName h es = some (ds, h') →
    h.next ≤ h'.next ∧ ∀ a, a < h.next → h'.look a = h.look a := by
  induction es with
  | nil =>
      intro h ds h' he
      simp only [copyMultiGoH, Option.some.injEq, Prod.mk.injEq] at he
      obtain ⟨-, rfl⟩ := he
      exact ⟨Nat.le_refl _, fun a _ => rfl⟩
  | cons e rest ih =>
      intro h ds h' he
      unfold copyMultiGoH at he
      split at he
      case _ de heq =>
        split at he
        case _ dup h1 heq2 =>
          simp only [Heap.alloc, Prod.mk.injEq] at heq2
          obtain ⟨rfl, rfl⟩ := heq2
          simp only [] at he
          split at he
          case _ hrec => cases he
          case _ ds0 h3 hrec =>
            simp only [Option.some.injEq, Prod.mk.injEq] at he
            obtain ⟨-, rfl⟩ := he
            obtain ⟨hle, hfr⟩ := ih _ ds0 h3 hrec
            have hnext2 :
                (Heap.write (Heap.mk ((h.next, HObj.hdict de) :: h.mem) (h.next + 1))
                  h.next (HObj.hdict (dset de "name" newName))).next = h.next + 1 := rfl
            rw [hnext2] at hle hfr
            constructor
            · exact Nat.le_trans (Nat.le_succ _) hle
            · intro a ha
              rw [hfr a (Nat.lt_succ_of_lt ha)]
              rw [Heap.look_write_ne _ _ _ a (Nat.ne_of_lt ha)]
              rw [Heap.look_mk_cons_ne _ _ _ a (Nat.ne_of_lt ha)]
              rfl
      case _ hne => cases he

/-- C8: `_build_new_entry` on the heap only writes to freshly allocated
objects: when it succeeds, the returned record is a fresh address (at or
above the old allocation frontier), every pre-existing address — the
original record and every record of its overload-family list included —
still holds exactly its original object, and in particular the original
record itself is unchanged, so renaming the copies is not observable
through the original. -/
theorem _build_new_entry_heap_frame (h : Heap) (newName value r : Nat)
    (h' : Heap) (hwf : ∀ p ∈ h.mem, p.1 < h.next)
    (hrun : buildNewEntryH h newName value = some (r, h')) :
    h.next ≤ r ∧ (∀ a, a < h.next → h'.look a = h.look a) ∧
      h'.look value = h.look value := by
  have hvlt : ∀ (o : HObj), h.look value = some o → value < h.next := by
    intro o ho
    obtain ⟨v, hv⟩ := (dlookup_isSome_iff_mem h.mem value).mp
      (show (h.look value).isSome = true by rw [ho]; rfl)
    exact hwf (value, v) hv
  unfold buildNewEntryH at hrun
  split at hrun
  case _ d heq =>
    have hvalue : value < h.next := hvlt _ heq
    split at hrun
    case _ nv h1 heq2 =>
      simp only [Heap.alloc, Prod.mk.injEq] at heq2
      obtain ⟨rfl, rfl⟩ := heq2
      split at hrun
      case _ maddr hm =>
        split at hrun
        case _ elems heq3 =>
          split at hrun
          case _ hrec => cases hrun
          case _ ds0 h2 hrec =>
            split at hrun
            case _ lst h3 heq4 =>
              simp only [Heap.alloc, Prod.mk.injEq] at heq4
              obtain ⟨rfl, rfl⟩ := heq4
              simp only [Option.some.injEq, Prod.mk.injEq] at hrun
              obtain ⟨rfl, rfl⟩ := hrun
              obtain ⟨hle, hfr⟩ := copyMultiGoH_frame newName elems _ ds0 h2 hrec
              have hnext1 :
                  (Heap.mk ((h.next, HObj.hdict d) :: h.mem) (h.next + 1)).next =
                    h.next + 1 := rfl
              rw [hnext1] at hle hfr
              have hframe : ∀ a, a < h.next →
                  ((Heap.mk ((h2.next, HObj.hlist ds0) :: h2.mem) (h2.next + 1)).write
                    h.next (HObj.hdict (dset d "multi" h2.next))).look a = h.look a := by
                intro a ha
                have h2next : a < h2.next :=
                  Nat.lt_of_lt_of_le (Nat.lt_succ_of_lt ha) hle
                rw [Heap.look_write_ne _ _ _ a (Nat.ne_of_lt ha)]
                rw [Heap.look_mk_cons_ne _ _ _ a (Nat.ne_of_lt h2next)]
                show h2.look a = h.look a
                rw [hfr a (Nat.lt_succ_of_lt ha)]
                rw [Heap.look_mk_cons_ne _ _ _ a (Nat.ne_of_lt ha)]
                rfl
              exact ⟨Nat.le_refl _, hframe, hframe value hvalue⟩
        case _ hne =>
          simp only [Option.some.injEq, Prod.mk.injEq] at hrun
          obtain ⟨rfl, rfl⟩ := hrun
          have hframe : ∀ a, a < h.next →
              ((Heap.mk ((h.next, HObj.hdict d) :: h.mem) (h.next + 1)).write
                h.next (HObj.hdict (dset d "name" newName))).look a = h.look a := by
            intro a ha
            rw [Heap.look_write_ne _ _ _ a (Nat.ne_of_lt ha)]
            rw [Heap.look_mk_cons_ne _ _ _ a (Nat.ne_of_lt ha)]
            rfl
          exact ⟨Nat.le_refl _, hframe, hframe value hvalue⟩
      case _ hm =>
        simp only [Option.some.injEq, Prod.mk.injEq] at hrun
        obtain ⟨rfl, rfl⟩ := hrun
        have hframe : ∀ a, a < h.next →
            ((Heap.mk ((h.next, HObj.hdict d) :: h.mem) (h.next + 1)).write
              h.next (HObj.hdict (dset d "name" newName))).look a = h.look a := by
          intro a ha
          rw [Heap.look_write_ne _ _ _ a (Nat.ne_of_lt ha)]
          rw [Heap.look_mk_cons_ne _ _ _ a (Nat.ne_of_lt ha)]
          rfl
        exact ⟨Nat.le_refl _, hframe, hframe value hvalue⟩
  case _ hne => cases hrun

/-- C8 witness: the frame property on a concrete heap holding a record
with a two-member overload family. -/
theorem _build_new_entry_heap_frame_witness :
    (∀ p ∈ (Heap.mk [(0, HObj.hstr "doThing"),
        (1, HObj.hdict [("name", 0), ("multi", 2)]),
        (2, HObj.hlist [3]), (3, HObj.hdict [("name", 0)]),
        (4, HObj.hstr "do_thing")] 5).mem, p.1 < 5) ∧
      buildNewEntryH (Heap.mk [(0, HObj.hstr "doThing"),
          (1, HObj.hdict [("name", 0), ("multi", 2)]),
          (2, HObj.hlist [3]), (3, HObj.hdict [("name", 0)]),
          (4, HObj.hstr "do_thing")] 5) 4 1 =
        some (5, Heap.mk [(7, HObj.hlist [6]),
          (6, HObj.hdict [("name", 4)]),
          (5, HObj.hdict [("name", 0), ("multi", 7)]),
          (0, HObj.hstr "doThing"),
          (1, HObj.hdict [("name", 0), ("multi", 2)]),
          (2, HObj.hlist [3]), (3, HObj.hdict [("name", 0)]),
          (4, HObj.hstr "do_thing")] 8) ∧
      (5 ≤ (5 : Nat) ∧
        (∀ a, a < (Heap.mk [(0, HObj.hstr "doThing"),
            (1, HObj.hdict [("name", 0), ("multi", 2)]),
            (2, HObj.hlist [3]), (3, HObj.hdict [("name", 0)]),
            (4, HObj.hstr "do_thing")] 5).next →
          (Heap.mk [(7, HObj.hlist [6]),
            (6, HObj.hdict [("name", 4)]),
            (5, HObj.hdict [("name", 0), ("multi", 7)]),
            (0, HObj.hstr "doThing"),
            (1, HObj.hdict [("name", 0), ("multi", 2)]),
            (2, HObj.hlist [3]), (3, HObj.hdict [("name", 0)]),
            (4, HObj.hstr "do_thing")] 8).look a =
          (Heap.mk [(0, HObj.hstr "doThing"),
            (1, HObj.hdict [("name", 0), ("multi", 2)]),
            (2, HObj.hlist [3]), (3, HObj.hdict [("name", 0)]),
            (4, HObj.hstr "do_thing")] 5).look a) ∧
        (Heap.mk [(7, HObj.hlist [6]),
          (6, HObj.hdict [("name", 4)]),
          (5, HObj.hdict [("name", 0), ("multi", 7)]),
          (0, HObj.hstr "doThing"),
          (1, HObj.hdict [("name", 0), ("multi", 2)]),
          (2, HObj.hlist [3]), (3, HObj.hdict [("name", 0)]),
          (4, HObj.hstr "do_thing")] 8).look 1 =
        (Heap.mk [(0, HObj.hstr "doThing"),
          (1, HObj.hdict [("name", 0), ("multi", 2)]),
          (2, HObj.hlist [3]), (3, HObj.hdict [("name", 0)]),
          (4, HObj.hstr "do_thing")] 5).look 1) :=
  ⟨by decide, by decide,
   _build_new_entry_heap_frame
     (Heap.mk [(0, HObj.hstr "doThing"),
       (1, HObj.hdict [("name", 0), ("multi", 2)]),
       (2, HObj.hlist [3]), (3, HObj.hdict [("name", 0)]),
       (4, HObj.hstr "do_thing")] 5) 4 1 5
     (Heap.mk [(7, HObj.hlist [6]),
       (6, HObj.hdict [("name", 4)]),
       (5, HObj.hdict [("name", 0), ("multi", 7)]),
       (0, HObj.hstr "doThing"),
       (1, HObj.hdict [("name", 0), ("multi", 2)]),
       (2, HObj.hlist [3]), (3, HObj.hdict [("name", 0)]),
       (4, HObj.hstr "do_thing")] 8) (by decide) (by decide)⟩

end Sig
